import Mathlib

/-!
Shallow embedding of the forms engine of `GabrielSantosA/Caso-de-Uso`
(forms-api).  The definitions below are transcribed from:

* `src/forms-api/src/core/domain/ports/FieldValidator.ts`
* `src/forms-api/src/core/app/services/Calculator.ts`
* `src/forms-api/src/core/app/use-cases/FormService.ts`
* `src/unnamed/part_006` (the `Graph` class)
* `src/forms-api/src/core/infra/adapters/controllers/FormController.ts`
  (the `softDelete` action)
* the Prisma repository (`FormRepositoryPrisma.ts`), modelled as a pure
  state transformer.

JavaScript runtime values are modelled by `Value`; an absent value
(`undefined`) is `Option.none`.  JS records are association lists.
Numbers are rationals (the engine performs no float-specific operation in
any property verified here).  `Date.now()` / `new Date()` are modelled by
an injected `now : Nat` parameter, as the spec itself demands for the
identifier/clock collaborator.
-/

namespace Forms

/-- A JavaScript runtime value as used by the engine: number, string,
boolean or array.  `undefined` is represented externally by `Option`. -/
inductive Value where
  | num (q : ℚ)
  | str (s : String)
  | bool (b : Bool)
  | arr (elems : List Value)

/-- A JS object used as a map from field ids to values
(`Record<string, unknown>`). -/
abbrev Rec := List (String × Value)

/-- `obj[key]` : `undefined` when the key is absent. -/
def Rec.get (r : Rec) (k : String) : Option Value :=
  (r.find? (fun p => p.1 = k)).map (fun p => p.2)

/-- `key in obj`. -/
def Rec.hasKey (r : Rec) (k : String) : Bool :=
  (r.find? (fun p => p.1 = k)).isSome

/-- `obj[key] = v` (overwrite or insert). -/
def Rec.set (r : Rec) (k : String) (v : Value) : Rec :=
  if r.hasKey k then r.map (fun p => if p.1 = k then (k, v) else p) else r ++ [(k, v)]

/-- JS truthiness of an optional string (`undefined` and `""` are falsy). -/
def strTruthy : Option String → Bool
  | none => false
  | some s => s ≠ ""

/-- JS truthiness of an optional boolean (`undefined` and `false` falsy). -/
def boolTruthy : Option Bool → Bool
  | none => false
  | some b => b

/-- JS truthiness of an optional number (`undefined` and `0` falsy). -/
def numTruthy : Option Int → Bool
  | none => false
  | some v => v ≠ 0

/-- JS truthiness of an optional array (any array object is truthy). -/
def arrTruthy (o : Option (List String)) : Bool :=
  o.isSome

/-- One entry of `validationRules` (`{tipo, valor?, mensagem?}`).
`RegExp`-valued rules are not representable in `Value`, so the
`valor instanceof RegExp` test of the source is always false here; no
verified property exercises a regex rule. -/
structure Validacao where
  tipo : String
  valor : Option Value := none
  mensagem : Option String := none

/-- One `{label, value}` option of a select field. -/
structure Opcao where
  label : String
  value : String
deriving DecidableEq, Repr

/-- The `Field` interface of `domain/entities/Form`.  `tipo` stays a plain
string to mirror the switch with its default branch. -/
structure Field where
  id : String
  label : String
  tipo : String
  obrigatorio : Option Bool := none
  condicional : Option String := none
  validacoes : Option (List Validacao) := none
  formula : Option String := none
  dependencias : Option (List String) := none
  precisao : Option Nat := none
  formato : Option String := none
  multipla : Option Bool := none
  opcoes : Option (List Opcao) := none
  minima : Option String := none
  maxima : Option String := none

/-- Errors surfaced by the engine: `msg` is a thrown `new Error(text)`,
`zod` is a `ZodError` escaping `parseAsync`. -/
inductive ZodError where
  | invalidType (expected : String) (received : String)
  | custom (msg : String)
deriving DecidableEq, Repr

inductive Err where
  | msg (s : String)
  | zod (e : ZodError)
deriving DecidableEq, Repr

/-- The zod schemas built by `FieldValidator.getValidator`, as a deep
embedding of exactly the combinators the source uses. -/
inductive Zod where
  | zString
  | zNumber
  | zBoolean
  | zUndef
  | zAny
  | zArrayString
  | optional (inner : Zod)
  | intCheck (inner : Zod)
  | minNum (inner : Zod) (bound : ℚ) (msg : String)
  | maxNum (inner : Zod) (bound : ℚ) (msg : String)
  | minLen (inner : Zod) (bound : ℚ) (msg : String)
  | refine (inner : Zod) (pred : Option Value → Bool) (msg : String)

/-- zod's name for the runtime type of a value (for `invalid_type`
issues). -/
def valueTypeName : Option Value → String
  | none => "undefined"
  | some (.num _) => "number"
  | some (.str _) => "string"
  | some (.bool _) => "boolean"
  | some (.arr _) => "array"

/-- `schema.parseAsync(value)`.  Checks attached by `.int()/.min()/.max()`
run after the base type check; `.refine` effects run only when the inner
schema succeeded (zod skips refinements of an aborted parse); `.optional`
accepts `undefined` without running the wrapped schema. -/
def zodParse : Zod → Option Value → Except ZodError Unit
  | .zString, some (.str _) => .ok ()
  | .zString, v => .error (.invalidType "string" (valueTypeName v))
  | .zNumber, some (.num _) => .ok ()
  | .zNumber, v => .error (.invalidType "number" (valueTypeName v))
  | .zBoolean, some (.bool _) => .ok ()
  | .zBoolean, v => .error (.invalidType "boolean" (valueTypeName v))
  | .zUndef, none => .ok ()
  | .zUndef, v => .error (.invalidType "undefined" (valueTypeName v))
  | .zAny, _ => .ok ()
  | .zArrayString, some (.arr l) =>
      if l.all (fun x => match x with | .str _ => true | _ => false) then .ok ()
      else .error (.invalidType "string" "non-string element")
  | .zArrayString, v => .error (.invalidType "array" (valueTypeName v))
  | .optional _, none => .ok ()
  | .optional inner, some v => zodParse inner (some v)
  | .intCheck inner, v =>
      match zodParse inner v with
      | .error e => .error e
      | .ok _ =>
        match v with
        | some (.num q) => if q.den = 1 then .ok () else .error (.custom "Expected integer, received float")
        | _ => .ok ()
  | .minNum inner bound msg, v =>
      match zodParse inner v with
      | .error e => .error e
      | .ok _ =>
        match v with
        | some (.num q) => if bound ≤ q then .ok () else .error (.custom msg)
        | _ => .ok ()
  | .maxNum inner bound msg, v =>
      match zodParse inner v with
      | .error e => .error e
      | .ok _ =>
        match v with
        | some (.num q) => if q ≤ bound then .ok () else .error (.custom msg)
        | _ => .ok ()
  | .minLen inner bound msg, v =>
      match zodParse inner v with
      | .error e => .error e
      | .ok _ =>
        match v with
        | some (.str s) => if bound ≤ (s.length : ℚ) then .ok () else .error (.custom msg)
        | _ => .ok ()
  | .refine inner pred msg, v =>
      match zodParse inner v with
      | .error e => .error e
      | .ok _ => if pred v then .ok () else .error (.custom msg)

/-- Models `Date.parse` succeeding on the date strings this development
uses (`YYYY-MM-DD`-shaped); only reached behind a successful string type
check, and no verified property depends on its branches. -/
def dateParseOk (s : String) : Bool :=
  s.length = 10 ∧ (s.toList.take 4).all Char.isDigit

/-- The date comparison `new Date(val) >= new Date(bound)`, modelled as
lexicographic comparison of the ISO strings (valid for same-length ISO
dates); unreached by every verified property. -/
def dateLe (a b : String) : Bool :=
  a ≤ b

namespace FieldValidator

/-- The `baseValidators` record, keyed by field kind. -/
def baseValidators (tipo : String) : Option Zod :=
  if tipo = "text" then some .zString
  else if tipo = "number" then some .zNumber
  else if tipo = "boolean" then some .zBoolean
  else if tipo = "date" then
    some (.refine .zString
      (fun v => match v with
        | some (.str s) => s = "" ∨ dateParseOk s
        | _ => true)
      "Data inválida")
  else if tipo = "select" then some .zString
  else if tipo = "calculated" then some .zUndef
  else none

/-- `applyTextValidations`: layers `tamanho_minimo` on the schema (the
`minLength?.valor &&` guard makes a numeric `0` skip the rule).  The
`regex` branch requires `valor instanceof RegExp`, which no `Value` can
satisfy, so it never fires. -/
def applyTextValidations (schema : Zod) (field : Field) : Zod :=
  match (field.validacoes.getD []).find? (fun v => v.tipo = "tamanho_minimo") with
  | some v =>
      match v.valor with
      | some (.num q) =>
          if q ≠ 0 then
            .minLen schema q ((v.mensagem).getD ("Tamanho mínimo é " ++ toString q))
          else schema
      | _ => schema
  | none => schema

/-- The body of the `field.validacoes?.forEach` loop of
`applyNumberValidations`: layers a `minimo` and/or `maximo` rule. -/
def applyNumberRule (s : Zod) (v : Validacao) : Zod :=
  let s :=
    if v.tipo = "minimo" then
      match v.valor with
      | some (.num q) =>
          Zod.minNum s q ((v.mensagem).getD ("Valor mínimo é " ++ toString q))
      | _ => s
    else s
  if v.tipo = "maximo" then
    match v.valor with
    | some (.num q) =>
        Zod.maxNum s q ((v.mensagem).getD ("Valor máximo é " ++ toString q))
    | _ => s
  else s

/-- `applyNumberValidations`: `.int()` for `formato = "inteiro"`, then
`minimo` / `maximo` rules in list order. -/
def applyNumberValidations (schema : Zod) (field : Field) : Zod :=
  let schema := if field.formato = some "inteiro" then .intCheck schema else schema
  (field.validacoes.getD []).foldl applyNumberRule schema

/-- `applyDateValidations`: inclusive `minima` / `maxima` refinements
(string truthiness guards, as in the source). -/
def applyDateValidations (schema : Zod) (field : Field) : Zod :=
  let schema :=
    if strTruthy field.minima then
      Zod.refine schema
        (fun v => match v with
          | some (.str s) => s = "" ∨ dateLe (field.minima.getD "") s
          | _ => true)
        ("Data deve ser após " ++ field.minima.getD "")
    else schema
  if strTruthy field.maxima then
    Zod.refine schema
      (fun v => match v with
        | some (.str s) => s = "" ∨ dateLe s (field.maxima.getD "")
        | _ => true)
      ("Data deve ser antes " ++ field.maxima.getD "")
  else schema

/-- `applySelectValidations`: multi-select replaces the schema with a
fresh `z.array(z.string())` refinement (discarding the required/optional
wrapper, as the source does); single select refines membership in the
option values. -/
def applySelectValidations (schema : Zod) (field : Field) : Zod :=
  let options := (field.opcoes.getD []).map (fun o => o.value)
  if boolTruthy field.multipla then
    .refine .zArrayString
      (fun v => match v with
        | some (.arr l) => l.all (fun x => match x with
            | .str s => options.contains s
            | _ => false)
        | _ => true)
      "Opção inválida"
  else
    .refine schema
      (fun v => match v with
        | some (.str s) => options.contains s
        | _ => false)
      "Opção inválida"

/-- `applyCalculatedValidations`: throws when `formula` or `dependencias`
is falsy; otherwise refines the `z.undefined()` schema. -/
def applyCalculatedValidations (schema : Zod) (field : Field) : Except Err Zod :=
  if ¬ strTruthy field.formula ∨ ¬ arrTruthy field.dependencias then
    .error (.msg "Campo calculado deve ter formula e dependencias")
  else
    .ok (.refine schema (fun v => v.isNone)
      "Campos calculados não podem ter valores inseridos manualmente")

/-- `getValidator`: base schema (or `z.any()`), `.optional()` when not
required, then the per-kind layering; unknown kinds throw. -/
def getValidator (field : Field) : Except Err Zod :=
  let schema := (baseValidators field.tipo).getD .zAny
  let schema := if ¬ boolTruthy field.obrigatorio then Zod.optional schema else schema
  if field.tipo = "text" then .ok (applyTextValidations schema field)
  else if field.tipo = "number" then .ok (applyNumberValidations schema field)
  else if field.tipo = "boolean" then .ok schema
  else if field.tipo = "date" then .ok (applyDateValidations schema field)
  else if field.tipo = "select" then .ok (applySelectValidations schema field)
  else if field.tipo = "calculated" then applyCalculatedValidations schema field
  else .error (.msg ("Unsupported field type: " ++ field.tipo))

/-- `FieldValidator.validate(value, field)`. -/
def validate (value : Option Value) (field : Field) : Except Err Unit :=
  match getValidator field with
  | .error e => .error e
  | .ok validator =>
    match zodParse validator value with
    | .error e => .error (.zod e)
    | .ok _ => .ok ()

end FieldValidator

/-- Reads an all-digit character list as a natural number. -/
def digitsToNat (l : List Char) : Nat :=
  l.foldl (fun a c => 10 * a + (c.toNat - 48)) 0

/-- Fragment of the external `mathjs` `evaluate(expression, scope)`
collaborator actually exercised by the verified properties: a bare
natural-number literal evaluates to that number and a bare identifier
evaluates to its value in scope.  Every other expression is treated as an
evaluation failure; no verified property depends on richer expressions. -/
def mathjsEvaluate (expr : String) (scope : Rec) : Option Value :=
  if expr ≠ "" ∧ expr.toList.all Char.isDigit then
    some (Value.num (digitsToNat expr.toList))
  else
    scope.get expr

/-- `Number(result.toFixed(p))`, modelled as round-half-up to `p` decimal
digits; no verified property exercises the rounding. -/
def toFixedRound (q : ℚ) (p : Nat) : ℚ :=
  ((round (q * (10 : ℚ) ^ p) : ℤ) : ℚ) / (10 : ℚ) ^ p

namespace Calculator

/-- `Calculator.calculate(field, values)`
(`src/forms-api/src/core/app/services/Calculator.ts`). -/
def calculate (field : Field) (values : Rec) : Except Err Value :=
  if ¬ strTruthy field.formula ∨ ¬ arrTruthy field.dependencias then
    .error (.msg ("Campo calculado '" ++ field.id ++ "' requer fórmula e dependências"))
  else
    let deps := field.dependencias.getD []
    let missingDeps := deps.filter (fun dep => ¬ values.hasKey dep)
    if missingDeps ≠ [] then
      .error (.msg ("Dependências ausentes para " ++ field.id ++ ": " ++
        String.intercalate ", " missingDeps))
    else
      let scope := deps.foldl
        (fun acc dep =>
          match values.get dep with
          | some v => Rec.set acc dep v
          | none => acc)   -- unreachable: every dep passed the `in` check
        []
      match mathjsEvaluate (field.formula.getD "") scope with
      | none => .error (.msg ("avaliação da formula falhou: " ++ field.formula.getD ""))
      | some result =>
        match field.precisao, result with
        | some p, .num q => .ok (.num (toFixedRound q p))
        | _, _ => .ok result

end Calculator

/-- The `Form` entity (`domain/entities/Form`).  `protegido` is optional
at runtime (create applies `?? false`). -/
structure Form where
  id : String
  nome : String
  descricao : Option String := none
  schema_version : Int
  is_ativo : Bool
  data_criacao : Nat := 0
  data_remocao : Option Nat := none
  usuario_remocao : Option String := none
  protegido : Option Bool := none
  campos : List Field

/-- The `Response` entity. -/
structure Response where
  id : String
  formId : String
  schema_version : Int
  respostas : Rec
  calculados : Rec
  criado_em : Nat
  is_ativo : Bool
  data_remocao : Option Nat := none
  usuario_remocao : Option String := none

/-- `Partial<Form>` as received by `atualizarSchemaFormulario`. -/
structure PartialForm where
  nome : Option String := none
  descricao : Option String := none
  schema_version : Option Int := none
  is_ativo : Option Bool := none
  data_criacao : Option Nat := none
  protegido : Option Bool := none
  campos : Option (List Field) := none

/-- The persistence collaborator's state: the stored form and response
rows. -/
structure RepoState where
  forms : List Form := []
  responses : List Response := []

namespace FormRepository

/-- `findById` (Prisma `findUnique`). -/
def findById (st : RepoState) (id : String) : Option Form :=
  st.forms.find? (fun f => f.id = id)

/-- `create` (Prisma `create`): appends the row and returns it. -/
def create (st : RepoState) (f : Form) : RepoState × Form :=
  ({ st with forms := st.forms ++ [f] }, f)

/-- `updateSchema` (Prisma `update`): only `nome`, `descricao`,
`schema_version` and `campos` appear in the update data; an `undefined`
entry leaves the column unchanged.  `none` models Prisma's error when the
row is missing. -/
def updateSchema (st : RepoState) (id : String) (p : PartialForm) :
    Option (RepoState × Form) :=
  match st.forms.find? (fun f => f.id = id) with
  | none => none
  | some row =>
    let updated := { row with
      nome := p.nome.getD row.nome,
      descricao := match p.descricao with | some d => some d | none => row.descricao,
      schema_version := p.schema_version.getD row.schema_version,
      campos := p.campos.getD row.campos }
    some ({ st with forms := st.forms.map (fun f => if f.id = id then updated else f) },
      updated)

/-- `softDelete` (Prisma `update`): flips `is_ativo` and stamps removal
time and actor. -/
def softDelete (st : RepoState) (id : String) (user : String) (now : Nat) : RepoState :=
  { st with forms := st.forms.map (fun f =>
      if f.id = id then
        { f with is_ativo := false, data_remocao := some now, usuario_remocao := some user }
      else f) }

/-- `saveResponse` (Prisma `create`): inserts the row and returns it.
`Response.id` is the table's primary key (`Response_pkey` in the initial
migration), so `prisma.response.create` throws a unique-constraint error
when a row with the same id already exists; that throw is modelled as
`none`. -/
def saveResponse (st : RepoState) (_formId : String) (r : Response) :
    Option (RepoState × Response) :=
  if (st.responses.find? (fun q => q.id = r.id)).isSome then none
  else some ({ st with responses := st.responses ++ [r] }, r)

end FormRepository

namespace FormService

/-- `validarCampos`: every field definition is validated with an absent
(`undefined`) candidate value. -/
def validarCampos (campos : List Field) : Except Err Unit :=
  campos.foldlM (fun _ campo => FieldValidator.validate none campo) ()

/-- The dependency map `grafo` built by `verificarDependenciasCirculares`
(`Map.set` semantics, insertion-ordered). -/
def mapSet (g : List (String × List String)) (k : String) (v : List String) :
    List (String × List String) :=
  if (g.find? (fun p => p.1 = k)).isSome then
    g.map (fun p => if p.1 = k then (k, v) else p)
  else g ++ [(k, v)]

def buildGrafo (campos : List Field) : List (String × List String) :=
  campos.foldl (fun g campo => mapSet g campo.id (campo.dependencias.getD [])) []

def grafoGet (g : List (String × List String)) (k : String) : List String :=
  ((g.find? (fun p => p.1 = k)).map (fun p => p.2)).getD []

mutual
/-- `detectarCiclo` of `verificarDependenciasCirculares`, with an explicit
fuel making the recursion structural; the callers always supply more fuel
than the number of distinct nodes, so the fuel-exhaustion branch is
unreachable.  Returns the updated `visitados` set (the recursion stack is
path-local: an element is added on entry and removed on exit). -/
def detectarCiclo (g : List (String × List String)) (fuel : Nat) (no : String)
    (visitados pilha : List String) : Except Err (List String) :=
  match fuel with
  | 0 => .ok visitados
  | fuel' + 1 =>
    detectarCicloVizinhos g fuel' (grafoGet g no) (visitados ++ [no]) (pilha ++ [no])
  termination_by (fuel, 0, 0)

/-- The `for (const vizinho of grafo.get(no) || [])` loop body. -/
def detectarCicloVizinhos (g : List (String × List String)) (fuel : Nat)
    (vizinhos : List String) (visitados pilha : List String) :
    Except Err (List String) :=
  match vizinhos with
  | [] => .ok visitados
  | vizinho :: rest =>
    if vizinho ∉ visitados then
      match detectarCiclo g fuel vizinho visitados pilha with
      | .error e => .error e
      | .ok visitados2 => detectarCicloVizinhos g fuel rest visitados2 pilha
    else if vizinho ∈ pilha then
      .error (.msg ("Dependência circular detectada no campo: " ++ vizinho))
    else
      detectarCicloVizinhos g fuel rest visitados pilha
  termination_by (fuel, 1, vizinhos.length)
end

/-- The `for (const no of grafo.keys()) if (!visitados.has(no))` loop. -/
def detectarCicloRaizes (g : List (String × List String)) (fuel : Nat)
    (raizes : List String) (visitados : List String) : Except Err (List String) :=
  match raizes with
  | [] => .ok visitados
  | no :: rest =>
    if no ∉ visitados then
      match detectarCiclo g fuel no visitados [] with
      | .error e => .error e
      | .ok v2 => detectarCicloRaizes g fuel rest v2
    else
      detectarCicloRaizes g fuel rest visitados

/-- `FormService.verificarDependenciasCirculares`. -/
def verificarDependenciasCirculares (campos : List Field) : Except Err Unit :=
  let grafo := buildGrafo campos
  let fuel := grafo.length + (grafo.map (fun p => p.2)).flatten.length + 1
  match detectarCicloRaizes grafo fuel (grafo.map (fun p => p.1)) [] with
  | .error e => .error e
  | .ok _ => .ok ()

/-- `condicional.split("=")`, structurally on the character list (same
result as the JS split on the one-character separator). -/
def splitEqAux : List Char → List Char → List String
  | [], acc => [String.mk acc.reverse]
  | c :: cs, acc =>
    if c = '=' then String.mk acc.reverse :: splitEqAux cs []
    else splitEqAux cs (c :: acc)

def splitEq (s : String) : List String := splitEqAux s.data []

/-- `FormService.avaliarCondicional` (single split on `=`, both parts must
be truthy, then strict equality of the submitted value against the string
literal). -/
def avaliarCondicional (condicional : String) (valores : Rec) : Except Err Bool :=
  let parts := splitEq condicional
  let campoId := parts.getD 0 ""
  let valorEsperado := parts.getD 1 ""
  if campoId = "" ∨ valorEsperado = "" then
    .error (.msg ("Expressão condicional inválida: " ++ condicional))
  else
    match valores.get campoId with
    | some (.str s) => .ok (s = valorEsperado)
    | _ => .ok false

/-- One iteration of the submission validation loop: calculated fields
are skipped, a truthy conditional evaluating to false skips the field,
otherwise the submitted value is validated. -/
def processarCampo (respostas : Rec) (campo : Field) : Except Err Unit :=
  if campo.tipo = "calculated" then .ok ()
  else if strTruthy campo.condicional then
    match avaliarCondicional (campo.condicional.getD "") respostas with
    | .error e => .error e
    | .ok b =>
      if ¬ b then .ok ()
      else FieldValidator.validate (respostas.get campo.id) campo
  else FieldValidator.validate (respostas.get campo.id) campo

def validarRespostas (campos : List Field) (respostas : Rec) : Except Err Unit :=
  campos.foldlM (fun _ campo => processarCampo respostas campo) ()

/-- The calculated-field loop of `enviarResposta`: iterates the calculated
fields in declared order and calls the calculator with the submitted
values as scope. -/
def calcularCampos (campos : List Field) (respostas : Rec) : Except Err Rec :=
  campos.foldlM
    (fun acc campo =>
      match Calculator.calculate campo respostas with
      | .error e => .error e
      | .ok v => .ok (Rec.set acc campo.id v))
    []

/-- `versaoAlvo = schema_version || formulario.schema_version` (JS `||`:
an explicit `0` falls back to the stored version). -/
def resolveVersaoAlvo (schema_version : Option Int) (stored : Int) : Int :=
  if numTruthy schema_version then schema_version.getD 0 else stored

/-- `FormService.criarFormulario`. -/
def criarFormulario (st : RepoState) (now : Nat) (form : Form) :
    Except Err (RepoState × Form) :=
  match validarCampos form.campos with
  | .error e => .error e
  | .ok _ =>
    match verificarDependenciasCirculares form.campos with
    | .error e => .error e
    | .ok _ =>
      let novo : Form := { form with
        schema_version := 1,
        is_ativo := true,
        data_criacao := now,
        protegido := some (form.protegido.getD false) }
      .ok (FormRepository.create st novo)

/-- `FormService.atualizarSchemaFormulario`. -/
def atualizarSchemaFormulario (st : RepoState) (id : String)
    (formularioAtualizado : PartialForm) : Except Err (RepoState × Form) :=
  match FormRepository.findById st id with
  | none => .error (.msg "Formulário não encontrado")
  | some formularioExistente =>
    if ¬ formularioExistente.is_ativo then .error (.msg "Formulário inativo")
    else
      match validarCampos (formularioAtualizado.campos.getD []) with
      | .error e => .error e
      | .ok _ =>
        match verificarDependenciasCirculares (formularioAtualizado.campos.getD []) with
        | .error e => .error e
        | .ok _ =>
          let novaVersaoSchema := formularioExistente.schema_version + 1
          if numTruthy formularioAtualizado.schema_version ∧
              formularioAtualizado.schema_version.getD 0 ≤ formularioExistente.schema_version then
            .error (.msg ("Versão do schema " ++
              toString (formularioAtualizado.schema_version.getD 0) ++
              " não é maior que a versão atual " ++
              toString formularioExistente.schema_version))
          else
            match FormRepository.updateSchema st id { formularioAtualizado with
              schema_version := some novaVersaoSchema,
              data_criacao := some formularioExistente.data_criacao,
              is_ativo := some formularioExistente.is_ativo,
              protegido := formularioExistente.protegido } with
            | none => .error (.msg "Registro não encontrado para atualização")
            | some (st2, atualizado) => .ok (st2, atualizado)

/-- `FormService.enviarResposta`. -/
def enviarResposta (st : RepoState) (now : Nat) (formId : String)
    (respostas : Rec) (schema_version : Option Int := none) :
    Except Err (RepoState × Response) :=
  match FormRepository.findById st formId with
  | none => .error (.msg "Formulário não encontrado")
  | some formulario =>
    if ¬ formulario.is_ativo then .error (.msg "Formulário inativo")
    else
      let versaoAlvo := resolveVersaoAlvo schema_version formulario.schema_version
      if versaoAlvo ≠ formulario.schema_version then
        .error (.msg "Versão do schema desatualizada")
      else
        match validarRespostas formulario.campos respostas with
        | .error e => .error e
        | .ok _ =>
          match calcularCampos (formulario.campos.filter (fun f => f.tipo = "calculated"))
              respostas with
          | .error e => .error e
          | .ok camposCalculados =>
            let resposta : Response := {
              id := "resposta_" ++ toString now,
              formId := formId,
              respostas := respostas,
              calculados := camposCalculados,
              schema_version := versaoAlvo,
              criado_em := now,
              is_ativo := true }
            match FormRepository.saveResponse st formId resposta with
            | none =>
              .error (.msg "Unique constraint failed on the fields: (id)")
            | some res => .ok res

/-- `FormService.obterFormularioPorId`. -/
def obterFormularioPorId (st : RepoState) (id : String) : Option Form :=
  FormRepository.findById st id

/-- `FormService.desativarFormulario` (note: no `protegido` check at the
service level — that check lives in the controller). -/
def desativarFormulario (st : RepoState) (now : Nat) (id : String)
    (usuario : String) : Except Err RepoState :=
  match FormRepository.findById st id with
  | none => .error (.msg "Formulário não encontrado")
  | some f =>
    if ¬ f.is_ativo then .error (.msg "Formulário inativo")
    else .ok (FormRepository.softDelete st id usuario now)

end FormService

/-- The HTTP outcome of the controller's soft-delete action. -/
inductive SoftDeleteOutcome where
  | ok
  | notFound (msg : String)
  | forbidden (msg : String)
  | failure (msg : String)
deriving DecidableEq, Repr

namespace FormController

/-- `FormController.softDelete`
(`src/forms-api/src/core/infra/adapters/controllers/FormController.ts`):
looks the form up, answers 403 for a protected form, otherwise delegates
to the service.  Transport-level id parsing is out of scope. -/
def softDelete (st : RepoState) (now : Nat) (id : String) :
    RepoState × SoftDeleteOutcome :=
  match FormService.obterFormularioPorId st id with
  | none => (st, .notFound "Formulário não encontrado")
  | some form =>
    if boolTruthy form.protegido then
      (st, .forbidden "Formulário protegido não pode ser removido")
    else
      match FormService.desativarFormulario st now id "usuario_admin" with
      | .error (.msg m) => (st, .failure m)
      | .error (.zod _) => (st, .failure "Erro ao desativar formulário")
      | .ok st2 => (st2, .ok)

end FormController

/-- The `Graph` class of `src/unnamed/part_006`: an insertion-ordered
adjacency map over string node ids. -/
structure Graph where
  adjacencyList : List (String × List String) := []

namespace Graph

/-- `new Graph()`. -/
def empty : Graph := {}

def hasNode (g : Graph) (node : String) : Bool :=
  (g.adjacencyList.find? (fun p => p.1 = node)).isSome

/-- `addNode`: idempotent registration. -/
def addNode (g : Graph) (node : String) : Graph :=
  if g.hasNode node then g
  else { adjacencyList := g.adjacencyList ++ [(node, [])] }

/-- `addEdge`: both endpoints must be registered. -/
def addEdge (g : Graph) (source destination : String) : Except Err Graph :=
  if ¬ g.hasNode source then
    .error (.msg ("Source node " ++ source ++ " not found"))
  else if ¬ g.hasNode destination then
    .error (.msg ("Destination node " ++ destination ++ " not found"))
  else
    .ok { adjacencyList := g.adjacencyList.map (fun p =>
      if p.1 = source then (p.1, p.2 ++ [destination]) else p) }

/-- `getNeighbors`. -/
def getNeighbors (g : Graph) (node : String) : Option (List String) :=
  (g.adjacencyList.find? (fun p => p.1 = node)).map (fun p => p.2)

/-- `this.adjacencyList.get(node) || []`. -/
def nbrs (g : Graph) (node : String) : List String :=
  (g.getNeighbors node).getD []

/-- `getNodes` (insertion order of `addNode`). -/
def nodes (g : Graph) : List String :=
  g.adjacencyList.map (fun p => p.1)

/-- Every node id the traversal can ever reach: the registered nodes plus
every edge target. -/
def univ (g : Graph) : List String :=
  g.nodes ++ (g.adjacencyList.map (fun p => p.2)).flatten

/-- How many universe entries are not yet visited (counted with
multiplicity); the strictly decreasing quantity of the traversal. -/
def unvisitedCount (g : Graph) (visited : List String) : Nat :=
  (g.univ.filter (fun x => x ∉ visited)).length

mutual
/-- `detectCycleUtil`, with fuel making the recursion structural.  The
visited set and recursion stack are insertion-ordered lists (JS `Set`
preserves insertion order, and `Array.from(recursionStack)` is exactly
the current DFS path because each call removes on exit what it added on
entry).  `hasCycle` supplies more fuel than the traversal can consume, so
the fuel-exhaustion branch is unreachable. -/
def detectCycleUtil (g : Graph) (fuel : Nat) (node : String)
    (visited stack : List String) : Option (List String) × List String :=
  if node ∈ stack then
    (some (stack.drop (stack.indexOf node) ++ [node]), visited)
  else if node ∈ visited then (none, visited)
  else
    match fuel with
    | 0 => (none, visited)
    | fuel' + 1 =>
      detectCycleGo g fuel' (g.nbrs node) (visited ++ [node]) (stack ++ [node])
  termination_by (fuel, 0, 0)

/-- The `for (const neighbor of neighbors)` loop of `detectCycleUtil`. -/
def detectCycleGo (g : Graph) (fuel : Nat) (nodesLeft : List String)
    (visited stack : List String) : Option (List String) × List String :=
  match nodesLeft with
  | [] => (none, visited)
  | n :: rest =>
    match detectCycleUtil g fuel n visited stack with
    | (some c, v) => (some c, v)
    | (none, v) => detectCycleGo g fuel rest v stack
  termination_by (fuel, 1, nodesLeft.length)
end

/-- The `for (const node of this.adjacencyList.keys())` loop of
`hasCycle`. -/
def hasCycleRoots (g : Graph) (fuel : Nat) (roots : List String)
    (visited : List String) : Option (List String) :=
  match roots with
  | [] => none
  | node :: rest =>
    match detectCycleUtil g fuel node visited [] with
    | (some c, _) => some c
    | (none, v) => hasCycleRoots g fuel rest v

/-- `hasCycle()`: returns the first discovered cycle (closed by repeating
its start node) or `none`. -/
def hasCycle (g : Graph) : Option (List String) :=
  hasCycleRoots g (g.univ.length + 1) g.nodes []

/-- `A → B`: the formula of `A` depends on `B`. -/
def Edge (g : Graph) (a b : String) : Prop := b ∈ g.nbrs a

/-- No node lies on a directed cycle. -/
def Acyclic (g : Graph) : Prop := ∀ a, ¬ Relation.TransGen (Edge g) a a

end Graph

/-! ### Auxiliary definitions used by the verification -/

/-- The digit list of `n` in base 10, most significant first; the
specification of `Nat.toDigitsCore`. -/
def myDigits (n : Nat) : List Char :=
  if h : n / 10 = 0 then [Nat.digitChar (n % 10)]
  else myDigits (n / 10) ++ [Nat.digitChar (n % 10)]
  termination_by n
  decreasing_by
    exact Nat.div_lt_self (Nat.pos_of_ne_zero (fun h0 => h (by simp [h0]))) (by omega)

/-- Reads a digit-character list back as a number (left inverse of
`myDigits`). -/
def digitsVal (l : List Char) : Nat :=
  l.foldl (fun a c => 10 * a + (c.toNat - 48)) 0

/-- The black (finished) list `B` of the DFS invariant: `visited` is the
blacks plus the stack, the blacks avoid the stack, and every neighbour of
a black node is black strictly earlier. -/
def RankOK (g : Graph) (B : List String) : Prop :=
  ∀ i (hi : i < B.length), ∀ y ∈ g.nbrs (B.get ⟨i, hi⟩),
    ∃ j, ∃ hj : j < B.length, j < i ∧ B.get ⟨j, hj⟩ = y

def GoodDFS (g : Graph) (B visited stack : List String) : Prop :=
  (∀ x, x ∈ visited ↔ (x ∈ B ∨ x ∈ stack)) ∧
  (∀ x ∈ B, x ∉ stack) ∧ RankOK g B

/-! ### Concrete inputs used by the claim-level theorems -/

/-- Calculated field `a` with a constant formula and no dependencies. -/
def campoCalcA : Field :=
  { id := "a", label := "A", tipo := "calculated", formula := some "2",
    dependencias := some [] }

/-- Calculated field `b` whose formula depends on calculated field `a`. -/
def campoCalcB : Field :=
  { id := "b", label := "B", tipo := "calculated", formula := some "a",
    dependencias := some ["a"] }

/-- Form declaring `a` before `b` (already in topological order). -/
def formAB : Form :=
  { id := "fab", nome := "AB", schema_version := 1, is_ativo := true,
    campos := [campoCalcA, campoCalcB] }

/-- Form declaring `b` before `a` (reverse topological order). -/
def formBA : Form :=
  { id := "fba", nome := "BA", schema_version := 1, is_ativo := true,
    campos := [campoCalcB, campoCalcA] }

def stAB : RepoState := { forms := [formAB] }
def stBA : RepoState := { forms := [formBA] }

/-- Optional text field `x`, no conditional. -/
def campoX : Field := { id := "x", label := "X", tipo := "text" }

/-- Calculated field `c` gated by the conditional `x=foo`. -/
def campoCondCalc : Field :=
  { id := "c", label := "C", tipo := "calculated", condicional := some "x=foo",
    formula := some "2", dependencias := some [] }

def formCond : Form :=
  { id := "fc", nome := "Cond", schema_version := 1, is_ativo := true,
    campos := [campoX, campoCondCalc] }

def stCond : RepoState := { forms := [formCond] }

/-- The response `enviarResposta` persists for `formCond` at time 5 with
`x = "bar"` (so the conditional of `c` is false). -/
def respCond : Response :=
  { id := "resposta_5", formId := "fc", respostas := [("x", Value.str "bar")],
    calculados := [("c", Value.num 2)], schema_version := 1, criado_em := 5,
    is_ativo := true }

/-- A protected, active, empty form. -/
def formProt : Form :=
  { id := "p1", nome := "P", schema_version := 1, is_ativo := true,
    protegido := some true, campos := [] }

def stProt : RepoState := { forms := [formProt] }

/-- `formProt` after the update that tries to clear protection: version
bumped, protection still on. -/
def formProt2 : Form :=
  { id := "p1", nome := "P", schema_version := 2, is_ativo := true,
    protegido := some true, campos := [] }

def stProt2 : RepoState := { forms := [formProt2] }

/-- An unprotected, active, empty form. -/
def formLivre : Form :=
  { id := "u1", nome := "U", schema_version := 1, is_ativo := true,
    protegido := some false, campos := [] }

def stLivre : RepoState := { forms := [formLivre] }

/-- A plain active form with no fields, stored at schema version 1. -/
def formBase : Form :=
  { id := "f0", nome := "F0", schema_version := 1, is_ativo := true,
    campos := [] }

def stBase : RepoState := { forms := [formBase] }

/-- The response persisted for `formBase` at time 9 when an explicit
`schema_version` of 0 is supplied. -/
def respZero : Response :=
  { id := "resposta_9", formId := "f0", respostas := [], calculados := [],
    schema_version := 1, criado_em := 9, is_ativo := true }

/-- The response persisted for `formBase` at time 1000. -/
def respMil : Response :=
  { id := "resposta_1000", formId := "f0", respostas := [], calculados := [],
    schema_version := 1, criado_em := 1000, is_ativo := true }

/-- The response persisted for `formBase` at time 1001. -/
def resp1001 : Response :=
  { id := "resposta_1001", formId := "f0", respostas := [], calculados := [],
    schema_version := 1, criado_em := 1001, is_ativo := true }

/-- The calculated field of the repository's own unit test (`deve validar
campo calculado`). -/
def imcField : Field :=
  { id := "imc", label := "IMC", tipo := "calculated",
    formula := some "peso / (altura/100)^2", dependencias := some ["peso", "altura"] }

/-- The same field without formula and dependencies. -/
def imcFieldInvalido : Field := { id := "imc", label := "IMC", tipo := "calculated" }

/-- A required text field. -/
def campoTextoObrigatorio : Field :=
  { id := "t", label := "T", tipo := "text", obrigatorio := some true }

/-- A form whose only field is required. -/
def formReq : Form :=
  { id := "r1", nome := "R", schema_version := 1, is_ativo := true,
    campos := [campoTextoObrigatorio] }

/-- A new-form payload whose caller-supplied version/active/protection
values must be overridden by `criarFormulario`. -/
def formNovo : Form :=
  { id := "n1", nome := "N", schema_version := 99, is_ativo := false,
    protegido := none, campos := [] }

/-- A required text field gated by the conditional `x=foo`. -/
def campoGatedText : Field :=
  { id := "g", label := "G", tipo := "text", obrigatorio := some true,
    condicional := some "x=foo" }

/-- The two-node cycle `a → b → a` built through `addNode`/`addEdge`. -/
def grafoCiclo : Graph :=
  ((((Graph.empty.addNode "a").addNode "b").addEdge "a" "b").toOption.getD
      Graph.empty |>.addEdge "b" "a").toOption.getD Graph.empty

/-- The acyclic line `a → b` built through `addNode`/`addEdge`. -/
def grafoLinha : Graph :=
  (((Graph.empty.addNode "a").addNode "b").addEdge "a" "b").toOption.getD
    Graph.empty

/-! ### Theorems -/

/-! #### Record and repository store lemmas -/

theorem Rec.hasKey_iff (r : Rec) (k : String) :
    r.hasKey k = true ↔ ∃ x ∈ r, x.1 = k := by
  unfold Rec.hasKey
  rw [List.find?_isSome]
  simp

theorem Rec.get_isSome_iff (r : Rec) (k : String) :
    (r.get k).isSome = true ↔ ∃ x ∈ r, x.1 = k := by
  unfold Rec.get
  rw [show (Option.map (fun p => p.2) (r.find? (fun p => p.1 = k))).isSome =
        (r.find? (fun p => p.1 = k)).isSome from by
      cases r.find? (fun p => p.1 = k) <;> rfl]
  rw [List.find?_isSome]
  simp

theorem Rec.get_set_self_isSome (r : Rec) (k : String) (v : Value) :
    ((r.set k v).get k).isSome := by
  rw [Rec.get_isSome_iff]
  unfold Rec.set
  by_cases hk : r.hasKey k
  · rw [if_pos hk]
    obtain ⟨x, hx, hxk⟩ := (Rec.hasKey_iff r k).1 hk
    refine ⟨(k, v), List.mem_map.2 ⟨x, hx, ?_⟩, rfl⟩
    simp [hxk]
  · rw [if_neg hk]
    exact ⟨(k, v), by simp, rfl⟩

theorem Rec.get_set_isSome (r : Rec) (k k2 : String) (v : Value)
    (h : (r.get k2).isSome) : ((r.set k v).get k2).isSome := by
  rw [Rec.get_isSome_iff] at h ⊢
  obtain ⟨x, hx, hxk⟩ := h
  unfold Rec.set
  by_cases hk : r.hasKey k
  · rw [if_pos hk]
    by_cases hxkk : x.1 = k
    · exact ⟨(k, v), List.mem_map.2 ⟨x, hx, by simp [hxkk]⟩, by rw [← hxkk, hxk]⟩
    · exact ⟨x, List.mem_map.2 ⟨x, hx, by simp [hxkk]⟩, hxk⟩
  · rw [if_neg hk]
    exact ⟨x, by simp [hx], hxk⟩

/-- `find?` over an id-keyed in-place update of the form store: the first
row matching the id is replaced by `u` applied to it, provided the
replacement keeps the id. -/
theorem find?_update_row (l : List Form) (id : String) (u : Form → Form)
    (f : Form) (hf : l.find? (fun x => x.id = id) = some f) (hq : (u f).id = id) :
    (l.map (fun x => if x.id = id then u x else x)).find? (fun x => x.id = id) =
      some (u f) := by
  induction l with
  | nil => simp at hf
  | cons a t ih =>
    by_cases ha : a.id = id
    · rw [List.find?_cons_of_pos _ (by simpa using ha)] at hf
      injection hf with hf; subst hf
      simp only [List.map_cons, if_pos ha]
      rw [List.find?_cons_of_pos _ (by simpa using hq)]
    · rw [List.find?_cons_of_neg _ (by simpa using ha)] at hf
      simp only [List.map_cons, if_neg ha]
      rw [List.find?_cons_of_neg _ (by simpa using ha)]
      exact ih hf

/-! #### DFS cycle detection: soundness of a reported cycle -/

theorem nbrs_subset_univ (g : Graph) (x y : String) (h : y ∈ g.nbrs x) :
    y ∈ g.univ := by
  unfold Graph.nbrs Graph.getNeighbors at h
  cases hf : g.adjacencyList.find? (fun p => p.1 = x) with
  | none => rw [hf] at h; simp at h
  | some p =>
    rw [hf] at h
    simp only [Option.map_some', Option.getD_some] at h
    unfold Graph.univ
    refine List.mem_append.2 (Or.inr ?_)
    exact List.mem_flatten.2 ⟨p.2,
      List.mem_map.2 ⟨p, List.mem_of_find?_eq_some hf, rfl⟩, h⟩

theorem edge_src_mem_nodes (g : Graph) (x y : String) (h : Graph.Edge g x y) :
    x ∈ g.nodes := by
  unfold Graph.Edge Graph.nbrs Graph.getNeighbors at h
  cases hf : g.adjacencyList.find? (fun p => p.1 = x) with
  | none => rw [hf] at h; simp at h
  | some p =>
    have hpx : p.1 = x := by simpa using List.find?_some hf
    exact List.mem_map.2 ⟨p, List.mem_of_find?_eq_some hf, hpx⟩

theorem nodes_subset_univ (g : Graph) (x : String) (h : x ∈ g.nodes) :
    x ∈ g.univ :=
  List.mem_append.2 (Or.inl h)

/-- A chain of edges from `a` to `b` with at least one step gives
transitive reachability. -/
theorem chain'_transGen {R : String → String → Prop} :
    ∀ (l : List String) (a b : String), l.Chain' R → l.head? = some a →
      l.getLast? = some b → 2 ≤ l.length → Relation.TransGen R a b := by
  intro l
  induction l with
  | nil => intro a b _ hh _ _; cases hh
  | cons x t ih =>
    intro a b hch hh hl hlen
    injection hh with hh
    subst hh
    cases t with
    | nil => simp at hlen
    | cons y t2 =>
      rw [List.chain'_cons] at hch
      obtain ⟨hxy, hch2⟩ := hch
      cases t2 with
      | nil =>
        have hyb : y = b := by simpa using hl
        subst hyb
        exact Relation.TransGen.single hxy
      | cons z t3 =>
        refine Relation.TransGen.head hxy (ih y b hch2 rfl ?_ ?_)
        · simpa using hl
        · simp only [List.length_cons]
          omega

/-- The slice of the recursion stack from the re-encountered node onward,
closed with that node, is a nonempty head-equals-last sequence and
witnesses a directed cycle. -/
theorem cycle_slice_ok (g : Graph) (node : String) (s : List String)
    (hs : node ∈ s) (hch : List.Chain' (Graph.Edge g) (s ++ [node])) :
    (s.drop (s.indexOf node) ++ [node]) ≠ [] ∧
    (s.drop (s.indexOf node) ++ [node]).head? =
      (s.drop (s.indexOf node) ++ [node]).getLast? ∧
    ∃ a, Relation.TransGen (Graph.Edge g) a a := by
  have hi : s.indexOf node < s.length := List.indexOf_lt_length.2 hs
  have hdropne : s.drop (s.indexOf node) ≠ [] := by
    intro h
    have := congrArg List.length h
    simp only [List.length_drop, List.length_nil] at this
    omega
  have hhead : (s.drop (s.indexOf node)).head? = some node := by
    rw [List.head?_drop]
    exact List.getElem?_indexOf hs
  have hheadc : (s.drop (s.indexOf node) ++ [node]).head? = some node := by
    rw [List.head?_append, hhead]
    rfl
  refine ⟨by simp, ?_, ?_⟩
  · rw [hheadc, List.getLast?_concat]
  · refine ⟨node, ?_⟩
    have hsuffix : (s.drop (s.indexOf node) ++ [node]) <:+ (s ++ [node]) := by
      obtain ⟨u, hu⟩ := List.drop_suffix (s.indexOf node) s
      exact ⟨u, by rw [← List.append_assoc, hu]⟩
    have hchc := hch.suffix hsuffix
    refine chain'_transGen _ node node hchc hheadc (List.getLast?_concat _) ?_
    have : 1 ≤ (s.drop (s.indexOf node)).length := by
      cases hd : s.drop (s.indexOf node) with
      | nil => exact absurd hd hdropne
      | cons a t => simp
    simp only [List.length_append, List.length_singleton]
    omega

/-- The recursion stack extended by the current node stays an edge
chain when stepping to a neighbour. -/
theorem chain_extend (g : Graph) (s : List String) (node n : String)
    (hch : List.Chain' (Graph.Edge g) (s ++ [node])) (hn : n ∈ g.nbrs node) :
    List.Chain' (Graph.Edge g) ((s ++ [node]) ++ [n]) := by
  rw [List.chain'_append]
  refine ⟨hch, List.chain'_singleton n, ?_⟩
  intro x hx y hy
  rw [List.getLast?_concat] at hx
  injection hx with hx
  subst hx
  simp only [List.head?_cons, Option.mem_def, Option.some.injEq] at hy
  subst hy
  exact hn

/-- Soundness of the traversal at every fuel: a reported cycle is
nonempty, closed (first = last) and witnesses a real directed cycle. -/
theorem detectCycle_sound (g : Graph) :
    ∀ fuel : Nat,
      (∀ (node : String) (v s c v2 : List String),
        List.Chain' (Graph.Edge g) (s ++ [node]) →
        Graph.detectCycleUtil g fuel node v s = (some c, v2) →
        c ≠ [] ∧ c.head? = c.getLast? ∧
          ∃ a, Relation.TransGen (Graph.Edge g) a a) ∧
      (∀ (ns v s c v2 : List String),
        (∀ n ∈ ns, List.Chain' (Graph.Edge g) (s ++ [n])) →
        Graph.detectCycleGo g fuel ns v s = (some c, v2) →
        c ≠ [] ∧ c.head? = c.getLast? ∧
          ∃ a, Relation.TransGen (Graph.Edge g) a a) := by
  intro fuel
  induction fuel with
  | zero =>
    have hu : ∀ (node : String) (v s c v2 : List String),
        List.Chain' (Graph.Edge g) (s ++ [node]) →
        Graph.detectCycleUtil g 0 node v s = (some c, v2) →
        c ≠ [] ∧ c.head? = c.getLast? ∧
          ∃ a, Relation.TransGen (Graph.Edge g) a a := by
      intro node v s c v2 hch heq
      unfold Graph.detectCycleUtil at heq
      split at heq
      · rename_i hs
        injection heq with h1 h2
        injection h1 with h1
        subst h1
        exact cycle_slice_ok g node s hs hch
      · split at heq
        · injection heq with h1 h2; cases h1
        · injection heq with h1 h2; cases h1
    refine ⟨hu, ?_⟩
    intro ns
    induction ns with
    | nil =>
      intro v s c v2 _ heq
      unfold Graph.detectCycleGo at heq
      injection heq with h1 h2
      cases h1
    | cons n rest ih =>
      intro v s c v2 hchains heq
      unfold Graph.detectCycleGo at heq
      split at heq
      · rename_i c2 v3 hr
        injection heq with h1 h2
        injection h1 with h1
        subst h1
        exact hu n v s _ v3 (hchains n (List.mem_cons_self n rest)) hr
      · rename_i v3 hr
        exact ih v3 s c v2 (fun m hm => hchains m (List.mem_cons_of_mem n hm)) heq
  | succ f ihf =>
    have hu : ∀ (node : String) (v s c v2 : List String),
        List.Chain' (Graph.Edge g) (s ++ [node]) →
        Graph.detectCycleUtil g (f + 1) node v s = (some c, v2) →
        c ≠ [] ∧ c.head? = c.getLast? ∧
          ∃ a, Relation.TransGen (Graph.Edge g) a a := by
      intro node v s c v2 hch heq
      unfold Graph.detectCycleUtil at heq
      split at heq
      · rename_i hs
        injection heq with h1 h2
        injection h1 with h1
        subst h1
        exact cycle_slice_ok g node s hs hch
      · split at heq
        · injection heq with h1 h2; cases h1
        · refine ihf.2 (g.nbrs node) (v ++ [node]) (s ++ [node]) c v2 ?_ heq
          intro n hn
          exact chain_extend g s node n hch hn
    refine ⟨hu, ?_⟩
    intro ns
    induction ns with
    | nil =>
      intro v s c v2 _ heq
      unfold Graph.detectCycleGo at heq
      injection heq with h1 h2
      cases h1
    | cons n rest ih =>
      intro v s c v2 hchains heq
      unfold Graph.detectCycleGo at heq
      split at heq
      · rename_i c2 v3 hr
        injection heq with h1 h2
        injection h1 with h1
        subst h1
        exact hu n v s _ v3 (hchains n (List.mem_cons_self n rest)) hr
      · rename_i v3 hr
        exact ih v3 s c v2 (fun m hm => hchains m (List.mem_cons_of_mem n hm)) heq

/-- Soundness lifted over the root loop of `hasCycle`. -/
theorem hasCycleRoots_sound (g : Graph) (fuel : Nat) :
    ∀ (roots v : List String) (c : List String),
      Graph.hasCycleRoots g fuel roots v = some c →
      c ≠ [] ∧ c.head? = c.getLast? ∧
        ∃ a, Relation.TransGen (Graph.Edge g) a a := by
  intro roots
  induction roots with
  | nil =>
    intro v c heq
    unfold Graph.hasCycleRoots at heq
    cases heq
  | cons node rest ih =>
    intro v c heq
    unfold Graph.hasCycleRoots at heq
    split at heq
    · rename_i c2 v3 hr
      injection heq with h1
      subst h1
      exact (detectCycle_sound g fuel).1 node v [] _ v3
        (by simp) hr
    · rename_i v3 hr
      exact ih v3 c heq

/-! #### DFS cycle detection: completeness (no report means acyclic) -/

theorem length_filter_le_of_imp {l : List String} {p q : String → Bool}
    (h : ∀ a, p a = true → q a = true) :
    (l.filter p).length ≤ (l.filter q).length := by
  induction l with
  | nil => simp
  | cons a t ih =>
    by_cases hp : p a = true
    · rw [List.filter_cons_of_pos hp, List.filter_cons_of_pos (h a hp)]
      simpa using ih
    · rw [List.filter_cons_of_neg (by simp [hp])]
      by_cases hq : q a = true
      · rw [List.filter_cons_of_pos hq]
        exact Nat.le_succ_of_le ih
      · rw [List.filter_cons_of_neg (by simp [hq])]
        exact ih

theorem length_filter_lt {l : List String} {p q : String → Bool} (x : String)
    (h : ∀ a, p a = true → q a = true) (hx : x ∈ l) (hqx : q x = true)
    (hpx : p x = false) :
    (l.filter p).length < (l.filter q).length := by
  induction l with
  | nil => cases hx
  | cons a t ih =>
    rcases List.mem_cons.1 hx with rfl | hxt
    · rw [List.filter_cons_of_neg (by simp [hpx]), List.filter_cons_of_pos hqx]
      exact Nat.lt_succ_of_le (length_filter_le_of_imp h)
    · by_cases hp : p a = true
      · rw [List.filter_cons_of_pos hp, List.filter_cons_of_pos (h a hp)]
        simpa using ih hxt
      · rw [List.filter_cons_of_neg (by simp [hp])]
        by_cases hq : q a = true
        · rw [List.filter_cons_of_pos hq]
          exact Nat.lt_succ_of_lt (ih hxt)
        · rw [List.filter_cons_of_neg (by simp [hq])]
          exact ih hxt

theorem unvisitedCount_le (g : Graph) (v v2 : List String)
    (hsub : ∀ y, y ∈ v → y ∈ v2) :
    g.unvisitedCount v2 ≤ g.unvisitedCount v := by
  unfold Graph.unvisitedCount
  refine length_filter_le_of_imp ?_
  intro a ha
  simp only [decide_eq_true_eq] at ha ⊢
  exact fun hav => ha (hsub a hav)

theorem unvisitedCount_lt (g : Graph) (v : List String) (x : String)
    (hx : x ∈ g.univ) (hnv : x ∉ v) :
    g.unvisitedCount (v ++ [x]) < g.unvisitedCount v := by
  unfold Graph.unvisitedCount
  refine length_filter_lt x ?_ hx (by simpa using hnv) (by simp)
  intro a ha
  simp only [decide_eq_true_eq, List.mem_append] at ha ⊢
  exact fun hav => ha (Or.inl hav)

theorem unvisitedCount_pos (g : Graph) (v : List String) (x : String)
    (hx : x ∈ g.univ) (hnv : x ∉ v) : 1 ≤ g.unvisitedCount v := by
  unfold Graph.unvisitedCount
  have hmem : x ∈ g.univ.filter (fun y => y ∉ v) :=
    List.mem_filter.2 ⟨hx, by simpa using hnv⟩
  exact List.length_pos.2 (List.ne_nil_of_mem hmem)

/-- Appending a node whose neighbours are already black keeps the
strictly-earlier-rank property. -/
theorem rankOK_append (g : Graph) (B : List String) (node : String)
    (hB : RankOK g B) (hnbrs : ∀ y ∈ g.nbrs node, y ∈ B) :
    RankOK g (B ++ [node]) := by
  intro i hi y hy
  have hlen : (B ++ [node]).length = B.length + 1 := by simp
  by_cases hiB : i < B.length
  · have hget : (B ++ [node]).get ⟨i, hi⟩ = B.get ⟨i, hiB⟩ := by
      simp only [List.get_eq_getElem]
      exact List.getElem_append_left hiB
    rw [hget] at hy
    obtain ⟨j, hj, hji, hjy⟩ := hB i hiB y hy
    refine ⟨j, by omega, hji, ?_⟩
    rw [← hjy]
    simp only [List.get_eq_getElem]
    exact List.getElem_append_left hj
  · have hieq : i = B.length := by rw [hlen] at hi; omega
    subst hieq
    have hget : (B ++ [node]).get ⟨B.length, hi⟩ = node := by
      simp only [List.get_eq_getElem]
      exact List.getElem_concat_length B node B.length rfl hi
    rw [hget] at hy
    obtain ⟨⟨j, hj⟩, hjy⟩ := List.mem_iff_get.1 (hnbrs y hy)
    refine ⟨j, by omega, hj, ?_⟩
    rw [← hjy]
    simp only [List.get_eq_getElem]
    exact List.getElem_append_left hj

/-- Completeness of the traversal: when no cycle is reported, the black
list extends to cover the processed node(s) while keeping the DFS
invariant. -/
theorem detectCycle_complete (g : Graph) :
    ∀ fuel : Nat,
      (∀ (node : String) (v s v2 B : List String),
        Graph.detectCycleUtil g fuel node v s = (none, v2) →
        GoodDFS g B v s → node ∈ g.univ → g.unvisitedCount v ≤ fuel →
        ∃ B2, (∀ x ∈ B, x ∈ B2) ∧ GoodDFS g B2 v2 s ∧ node ∈ B2) ∧
      (∀ (ns v s v2 B : List String),
        Graph.detectCycleGo g fuel ns v s = (none, v2) →
        GoodDFS g B v s → (∀ n ∈ ns, n ∈ g.univ) → g.unvisitedCount v ≤ fuel →
        ∃ B2, (∀ x ∈ B, x ∈ B2) ∧ GoodDFS g B2 v2 s ∧ ∀ n ∈ ns, n ∈ B2) := by
  have hgo : ∀ fuel : Nat,
      (∀ (node : String) (v s v2 B : List String),
        Graph.detectCycleUtil g fuel node v s = (none, v2) →
        GoodDFS g B v s → node ∈ g.univ → g.unvisitedCount v ≤ fuel →
        ∃ B2, (∀ x ∈ B, x ∈ B2) ∧ GoodDFS g B2 v2 s ∧ node ∈ B2) →
      (∀ (ns v s v2 B : List String),
        Graph.detectCycleGo g fuel ns v s = (none, v2) →
        GoodDFS g B v s → (∀ n ∈ ns, n ∈ g.univ) → g.unvisitedCount v ≤ fuel →
        ∃ B2, (∀ x ∈ B, x ∈ B2) ∧ GoodDFS g B2 v2 s ∧ ∀ n ∈ ns, n ∈ B2) := by
    intro fuel hu ns
    induction ns with
    | nil =>
      intro v s v2 B heq hgood _ _
      unfold Graph.detectCycleGo at heq
      injection heq with h1 h2
      subst h2
      exact ⟨B, fun x hx => hx, hgood, by simp⟩
    | cons n rest ih =>
      intro v s v2 B heq hgood hns hfuel
      unfold Graph.detectCycleGo at heq
      split at heq
      · injection heq with h1 h2
        cases h1
      · rename_i v3 hr
        obtain ⟨B1, hBB1, hgood1, hn⟩ := hu n v s v3 B hr hgood
          (hns n (List.mem_cons_self n rest)) hfuel
        have hsub : ∀ y, y ∈ v → y ∈ v3 := by
          intro y hy
          rcases (hgood.1 y).1 hy with hB | hs
          · exact (hgood1.1 y).2 (Or.inl (hBB1 y hB))
          · exact (hgood1.1 y).2 (Or.inr hs)
        obtain ⟨B2, hB1B2, hgood2, hrest⟩ := ih v3 s v2 B1 heq hgood1
          (fun m hm => hns m (List.mem_cons_of_mem n hm))
          (le_trans (unvisitedCount_le g v v3 hsub) hfuel)
        refine ⟨B2, fun x hx => hB1B2 x (hBB1 x hx), hgood2, ?_⟩
        intro m hm
        rcases List.mem_cons.1 hm with rfl | hm2
        · exact hB1B2 m hn
        · exact hrest m hm2
  intro fuel
  induction fuel with
  | zero =>
    have hu : ∀ (node : String) (v s v2 B : List String),
        Graph.detectCycleUtil g 0 node v s = (none, v2) →
        GoodDFS g B v s → node ∈ g.univ → g.unvisitedCount v ≤ 0 →
        ∃ B2, (∀ x ∈ B, x ∈ B2) ∧ GoodDFS g B2 v2 s ∧ node ∈ B2 := by
      intro node v s v2 B heq hgood hnode hfuel
      unfold Graph.detectCycleUtil at heq
      split at heq
      · injection heq with h1 h2
        cases h1
      · split at heq
        · rename_i hs hv
          injection heq with h1 h2
          subst h2
          refine ⟨B, fun x hx => hx, hgood, ?_⟩
          rcases (hgood.1 node).1 hv with hB | hsm
          · exact hB
          · exact absurd hsm hs
        · rename_i hs hv
          exact absurd (unvisitedCount_pos g v node hnode hv) (by omega)
    exact ⟨hu, hgo 0 hu⟩
  | succ f ihf =>
    have hu : ∀ (node : String) (v s v2 B : List String),
        Graph.detectCycleUtil g (f + 1) node v s = (none, v2) →
        GoodDFS g B v s → node ∈ g.univ → g.unvisitedCount v ≤ f + 1 →
        ∃ B2, (∀ x ∈ B, x ∈ B2) ∧ GoodDFS g B2 v2 s ∧ node ∈ B2 := by
      intro node v s v2 B heq hgood hnode hfuel
      unfold Graph.detectCycleUtil at heq
      split at heq
      · injection heq with h1 h2
        cases h1
      · split at heq
        · rename_i hs hv
          injection heq with h1 h2
          subst h2
          refine ⟨B, fun x hx => hx, hgood, ?_⟩
          rcases (hgood.1 node).1 hv with hB | hsm
          · exact hB
          · exact absurd hsm hs
        · rename_i hs hv
          have hgood2 : GoodDFS g B (v ++ [node]) (s ++ [node]) := by
            refine ⟨?_, ?_, hgood.2.2⟩
            · intro x
              constructor
              · intro hx
                rcases List.mem_append.1 hx with hxv | hxn
                · rcases (hgood.1 x).1 hxv with hB | hsmm
                  · exact Or.inl hB
                  · exact Or.inr (List.mem_append.2 (Or.inl hsmm))
                · exact Or.inr (List.mem_append.2 (Or.inr hxn))
              · intro hx
                rcases hx with hB | hsm2
                · exact List.mem_append.2 (Or.inl ((hgood.1 x).2 (Or.inl hB)))
                · rcases List.mem_append.1 hsm2 with hs1 | hx1
                  · exact List.mem_append.2 (Or.inl ((hgood.1 x).2 (Or.inr hs1)))
                  · exact List.mem_append.2 (Or.inr hx1)
            · intro x hxB hmem
              rcases List.mem_append.1 hmem with hs1 | hx1
              · exact hgood.2.1 x hxB hs1
              · have hxv : x ∈ v := (hgood.1 x).2 (Or.inl hxB)
                simp only [List.mem_singleton] at hx1
                subst hx1
                exact hv hxv
          obtain ⟨B1, hBB1, hgood1, hns⟩ := (hgo f ihf.1) (g.nbrs node) (v ++ [node])
            (s ++ [node]) v2 B heq hgood2
            (fun n hn => nbrs_subset_univ g node n hn)
            (by have := unvisitedCount_lt g v node hnode hv; omega)
          refine ⟨B1 ++ [node], fun x hx => List.mem_append.2 (Or.inl (hBB1 x hx)),
            ⟨?_, ?_, ?_⟩, by simp⟩
          · intro x
            constructor
            · intro hx
              rcases (hgood1.1 x).1 hx with hB | hsm2
              · exact Or.inl (List.mem_append.2 (Or.inl hB))
              · rcases List.mem_append.1 hsm2 with hs1 | hx1
                · exact Or.inr hs1
                · exact Or.inl (List.mem_append.2 (Or.inr hx1))
            · intro hx
              rcases hx with hB | hsm2
              · rcases List.mem_append.1 hB with hB1 | hx1
                · exact (hgood1.1 x).2 (Or.inl hB1)
                · exact (hgood1.1 x).2 (Or.inr (List.mem_append.2 (Or.inr hx1)))
              · exact (hgood1.1 x).2 (Or.inr (List.mem_append.2 (Or.inl hsm2)))
          · intro x hxB hxs
            rcases List.mem_append.1 hxB with hB1 | hx1
            · exact hgood1.2.1 x hB1 (List.mem_append.2 (Or.inl hxs))
            · simp only [List.mem_singleton] at hx1
              subst hx1
              exact hs hxs
          · exact rankOK_append g B1 node hgood1.2.2 (fun y hy => hns y hy)
    exact ⟨hu, hgo (f + 1) hu⟩

/-- Completeness lifted over the root loop: a silent run yields a black
order covering every root. -/
theorem hasCycleRoots_complete (g : Graph) (fuel : Nat) :
    ∀ (roots v B : List String),
      Graph.hasCycleRoots g fuel roots v = none →
      GoodDFS g B v [] → (∀ r ∈ roots, r ∈ g.univ) → g.unvisitedCount v ≤ fuel →
      ∃ B2, (∀ x ∈ B, x ∈ B2) ∧ RankOK g B2 ∧ ∀ r ∈ roots, r ∈ B2 := by
  intro roots
  induction roots with
  | nil =>
    intro v B _ hgood _ _
    exact ⟨B, fun x hx => hx, hgood.2.2, by simp⟩
  | cons node rest ih =>
    intro v B heq hgood hroots hfuel
    unfold Graph.hasCycleRoots at heq
    split at heq
    · cases heq
    · rename_i v3 hr
      obtain ⟨B1, hBB1, hgood1, hn⟩ := (detectCycle_complete g fuel).1 node v [] v3 B
        hr hgood (hroots node (List.mem_cons_self node rest)) hfuel
      have hsub : ∀ y, y ∈ v → y ∈ v3 := by
        intro y hy
        rcases (hgood.1 y).1 hy with hB | hs
        · exact (hgood1.1 y).2 (Or.inl (hBB1 y hB))
        · exact (hgood1.1 y).2 (Or.inr hs)
      obtain ⟨B2, hB1B2, hrank, hrest⟩ := ih v3 B1 heq hgood1
        (fun r hr2 => hroots r (List.mem_cons_of_mem node hr2))
        (le_trans (unvisitedCount_le g v v3 hsub) hfuel)
      refine ⟨B2, fun x hx => hB1B2 x (hBB1 x hx), hrank, ?_⟩
      intro r hr2
      rcases List.mem_cons.1 hr2 with rfl | hr3
      · exact hB1B2 r hn
      · exact hrest r hr3

/-! #### From a black order to acyclicity -/

theorem indexOf_le_of_getElem (l : List String) (a : String) :
    ∀ (j : Nat) (hj : j < l.length), l[j] = a → l.indexOf a ≤ j := by
  induction l with
  | nil => intro j hj; exact absurd hj (Nat.not_lt_zero j)
  | cons b t ih =>
    intro j hj h
    cases j with
    | zero =>
      simp only [List.getElem_cons_zero] at h
      subst h
      simp [List.indexOf_cons_self]
    | succ j2 =>
      by_cases hb : b = a
      · subst hb
        simp [List.indexOf_cons_self]
      · rw [List.indexOf_cons_ne t hb]
        simp only [List.getElem_cons_succ] at h
        exact Nat.succ_le_succ (ih j2 (by simpa using hj) h)

theorem rank_edge_lt (g : Graph) (B : List String) (hB : RankOK g B) (x y : String)
    (hxy : Graph.Edge g x y) (hx : x ∈ B) :
    y ∈ B ∧ B.indexOf y < B.indexOf x := by
  have hi : B.indexOf x < B.length := List.indexOf_lt_length.2 hx
  have hgx : B.get ⟨B.indexOf x, hi⟩ = x := List.indexOf_get hi
  obtain ⟨j, hj, hji, hjy⟩ := hB (B.indexOf x) hi y (by rw [hgx]; exact hxy)
  constructor
  · exact hjy ▸ List.get_mem B j hj
  · have hle : B.indexOf y ≤ j :=
      indexOf_le_of_getElem B y j hj (by simpa [List.get_eq_getElem] using hjy)
    omega

theorem transGen_rank (g : Graph) (B : List String) (hB : RankOK g B) :
    ∀ x y, Relation.TransGen (Graph.Edge g) x y → x ∈ B →
      y ∈ B ∧ B.indexOf y < B.indexOf x := by
  intro x y h
  induction h with
  | single h1 => intro hx; exact rank_edge_lt g B hB _ _ h1 hx
  | tail h1 h2 ih =>
    intro hx
    obtain ⟨hyB, hlt⟩ := ih hx
    obtain ⟨hzB, hlt2⟩ := rank_edge_lt g B hB _ _ h2 hyB
    exact ⟨hzB, by omega⟩

theorem transGen_src_mem (g : Graph) (x y : String)
    (h : Relation.TransGen (Graph.Edge g) x y) : x ∈ g.nodes := by
  induction h using Relation.TransGen.head_induction_on with
  | base h1 => exact edge_src_mem_nodes g _ _ h1
  | ih h1 _ _ => exact edge_src_mem_nodes g _ _ h1

/-- C2: over every graph built through `addNode`/`addEdge` (indeed every
adjacency state), `hasCycle` returns `none` exactly when the graph has no
directed cycle, and every reported cycle is a nonempty sequence whose
first and last elements coincide. -/
theorem C2_hasCycle_correct (g : Graph) :
    (g.hasCycle = none ↔ Graph.Acyclic g) ∧
    (∀ c, g.hasCycle = some c → c ≠ [] ∧ c.head? = c.getLast?) := by
  have hsound : ∀ c, g.hasCycle = some c →
      c ≠ [] ∧ c.head? = c.getLast? ∧
        ∃ a, Relation.TransGen (Graph.Edge g) a a :=
    fun c h => hasCycleRoots_sound g (g.univ.length + 1) g.nodes [] c h
  constructor
  · constructor
    · intro hnone a htrans
      have hgood0 : GoodDFS g [] [] [] := by
        refine ⟨by simp, by simp, ?_⟩
        intro i hi
        exact absurd hi (Nat.not_lt_zero i)
      obtain ⟨B, _, hrank, hmem⟩ := hasCycleRoots_complete g (g.univ.length + 1)
        g.nodes [] [] hnone hgood0 (fun r hr => nodes_subset_univ g r hr)
        (Nat.le_succ_of_le (List.length_filter_le _ _))
      have haB : a ∈ B := hmem a (transGen_src_mem g a a htrans)
      obtain ⟨_, hlt⟩ := transGen_rank g B hrank a a htrans haB
      omega
    · intro hacyc
      cases hc : g.hasCycle with
      | none => rfl
      | some c =>
        obtain ⟨-, -, a, ha⟩ := hsound c hc
        exact absurd ha (hacyc a)
  · intro c h
    exact ⟨(hsound c h).1, (hsound c h).2.1⟩

/-- C2 witness: the `a → b → a` graph reports the closed nonempty cycle
`[a, b, a]`; the acyclic `a → b` graph is certified acyclic. -/
theorem C2_witness :
    ((["a", "b", "a"] : List String) ≠ [] ∧
      (["a", "b", "a"] : List String).head? =
        (["a", "b", "a"] : List String).getLast?) ∧
    Graph.Acyclic grafoLinha := by
  refine ⟨(C2_hasCycle_correct grafoCiclo).2 ["a", "b", "a"] ?_,
    (C2_hasCycle_correct grafoLinha).1.mp ?_⟩
  · rw [show grafoCiclo = { adjacencyList := [("a", ["b"]), ("b", ["a"])] }
      from rfl]
    simp [Graph.hasCycle, Graph.hasCycleRoots, Graph.detectCycleUtil,
      Graph.detectCycleGo, Graph.univ, Graph.nodes, Graph.nbrs,
      Graph.getNeighbors]
  · rw [show grafoLinha = { adjacencyList := [("a", ["b"]), ("b", [])] }
      from rfl]
    simp [Graph.hasCycle, Graph.hasCycleRoots, Graph.detectCycleUtil,
      Graph.detectCycleGo, Graph.univ, Graph.nodes, Graph.nbrs,
      Graph.getNeighbors]

/-! #### Fold lemmas for the validation and calculation loops -/

theorem validarCampos_cons (c : Field) (t : List Field) :
    FormService.validarCampos (c :: t) =
      match FieldValidator.validate none c with
      | .error e => .error e
      | .ok _ => FormService.validarCampos t := by
  unfold FormService.validarCampos
  rw [List.foldlM_cons]
  cases hv : FieldValidator.validate none c
  · rfl
  · rename_i u; cases u; rfl

theorem validarCampos_error_of_mem (campos : List Field) (campo : Field)
    (hmem : campo ∈ campos) (hfail : ∃ e, FieldValidator.validate none campo = .error e) :
    ∃ e, FormService.validarCampos campos = .error e := by
  induction campos with
  | nil => cases hmem
  | cons c t ih =>
    rw [validarCampos_cons]
    cases hv : FieldValidator.validate none c with
    | error e => exact ⟨e, rfl⟩
    | ok u =>
      rcases List.mem_cons.1 hmem with h | h
      · subst h
        obtain ⟨e, he⟩ := hfail
        rw [hv] at he
        cases he
      · exact ih h

theorem calcularCampos_fold_isSome (respostas : Rec) :
    ∀ (l : List Field) (acc m : Rec),
      (l.foldlM (fun (acc : Rec) (campo : Field) =>
          match Calculator.calculate campo respostas with
          | .error e => (.error e : Except Err Rec)
          | .ok v => .ok (Rec.set acc campo.id v)) acc) = .ok m →
      (∀ k, (Rec.get acc k).isSome → (Rec.get m k).isSome) ∧
      (∀ campo ∈ l, (Rec.get m campo.id).isSome) := by
  intro l
  induction l with
  | nil =>
    intro acc m h
    rw [List.foldlM_nil] at h
    cases h
    exact ⟨fun k hk => hk, fun campo hc => (List.not_mem_nil campo hc).elim⟩
  | cons c t ih =>
    intro acc m h
    rw [List.foldlM_cons] at h
    cases hv : Calculator.calculate c respostas with
    | error e => rw [hv] at h; cases h
    | ok v =>
      rw [hv] at h
      have h2 : (t.foldlM (fun (acc : Rec) (campo : Field) =>
          match Calculator.calculate campo respostas with
          | .error e => (.error e : Except Err Rec)
          | .ok v => .ok (Rec.set acc campo.id v)) (Rec.set acc c.id v)) = .ok m := h
      obtain ⟨hpres, hmem⟩ := ih (Rec.set acc c.id v) m h2
      refine ⟨fun k hk => hpres k (Rec.get_set_isSome acc c.id k v hk), ?_⟩
      intro campo hc
      rcases List.mem_cons.1 hc with hh | hh
      · subst hh
        exact hpres campo.id (Rec.get_set_self_isSome acc campo.id v)
      · exact hmem campo hh

/-- Dissection of a successful `atualizarSchemaFormulario`: the persisted
row merges the incoming `nome`/`descricao`/`campos`, bumps the schema
version to stored + 1, and leaves every other column (creation timestamp,
active flag, protection flag) untouched; the store is the in-place row
update and responses are untouched. -/
theorem atualizar_ok_shape (st : RepoState) (id : String) (p : PartialForm)
    (f : Form) (st2 : RepoState) (f2 : Form)
    (hf : FormRepository.findById st id = some f)
    (h : FormService.atualizarSchemaFormulario st id p = .ok (st2, f2)) :
    f2 = { f with
      nome := p.nome.getD f.nome,
      descricao := match p.descricao with | some d => some d | none => f.descricao,
      schema_version := f.schema_version + 1,
      campos := p.campos.getD f.campos } ∧
    st2.forms = st.forms.map (fun x => if x.id = id then f2 else x) ∧
    st2.responses = st.responses := by
  unfold FormService.atualizarSchemaFormulario at h
  split at h
  · exact (Except.noConfusion h)
  · rename_i x heq
    rw [hf] at heq
    injection heq with heq
    subst heq
    split at h
    · exact (Except.noConfusion h)
    · split at h
      · exact (Except.noConfusion h)
      · split at h
        · exact (Except.noConfusion h)
        · split at h
          · exact (Except.noConfusion h)
          · simp only [] at h
            split at h
            · exact (Except.noConfusion h)
            · rename_i st2u heq3
              injection h with h
              injection h with h1 h2
              subst h2
              unfold FormRepository.updateSchema at heq3
              split at heq3
              · rename_i hnone
                unfold FormRepository.findById at hf
                rw [hnone] at hf
                cases hf
              · rename_i row hrow
                have hrowf : row = f := by
                  unfold FormRepository.findById at hf
                  rw [hrow] at hf
                  injection hf
                subst hrowf
                injection heq3 with heq3
                injection heq3 with h3 h4
                subst h4
                refine ⟨rfl, ?_, ?_⟩
                · rw [← h1, ← h3]
                · rw [← h1, ← h3]

/-- The id of the first row of a `find?` hit matches the searched id. -/
theorem findById_id (st : RepoState) (id : String) (f : Form)
    (hf : FormRepository.findById st id = some f) : f.id = id := by
  have := List.find?_some hf
  simpa using this

/-- C4 amended: conditional gating during submission skips only the
*validation* of non-calculated fields whose conditional evaluates to
false; calculated fields are always evaluated and recorded, regardless of
any conditional (the calculated-field loop never consults conditionals);
fields bearing no conditional are always validated; and definition-level
validation is independent of the conditional, so it is never suppressed
during creation or schema update. -/
theorem C4_amended_conditional_gating :
    (∀ (respostas : Rec) (campo : Field), campo.tipo ≠ "calculated" →
      strTruthy campo.condicional →
      FormService.avaliarCondicional (campo.condicional.getD "") respostas = .ok false →
      FormService.processarCampo respostas campo = .ok ()) ∧
    (∀ (campos : List Field) (respostas m : Rec),
      FormService.calcularCampos (campos.filter (fun f => f.tipo = "calculated"))
        respostas = .ok m →
      ∀ campo ∈ campos, campo.tipo = "calculated" → (Rec.get m campo.id).isSome) ∧
    (∀ (respostas : Rec) (campo : Field), campo.condicional = none →
      campo.tipo ≠ "calculated" →
      FormService.processarCampo respostas campo =
        FieldValidator.validate (respostas.get campo.id) campo) ∧
    (∀ (campo : Field) (c : Option String),
      FieldValidator.validate none { campo with condicional := c } =
        FieldValidator.validate none campo) := by
  refine ⟨?_, ?_, ?_, ?_⟩
  · intro respostas campo h1 h2 h3
    simp only [FormService.processarCampo, if_neg h1, h2, if_pos, h3]
    simp [h3]
  · intro campos respostas m hcalc campo hmem htipo
    have hfil : campo ∈ campos.filter (fun f => f.tipo = "calculated") :=
      List.mem_filter.2 ⟨hmem, by simp [htipo]⟩
    exact (calcularCampos_fold_isSome respostas _ [] m hcalc).2 campo hfil
  · intro respostas campo h1 h2
    simp [FormService.processarCampo, if_neg h2, h1, strTruthy]
  · intro campo c
    rfl

/-- C4 amended witness: the gated required text field `g` is skipped when
`x = "bar"`, the gated calculated field `c` of `formCond` is still
recorded, the ungated field `x` is validated, and definition-level
validation ignores conditionals. -/
theorem C4_amended_witness :
    FormService.processarCampo [("x", Value.str "bar")] campoGatedText = .ok () ∧
    (Rec.get [("c", Value.num 2)] campoCondCalc.id).isSome ∧
    FormService.processarCampo [] campoX =
      FieldValidator.validate (Rec.get [] campoX.id) campoX ∧
    FieldValidator.validate none { campoX with condicional := some "x=foo" } =
      FieldValidator.validate none campoX := by
  refine ⟨?_, ?_, ?_, ?_⟩
  · exact C4_amended_conditional_gating.1 [("x", Value.str "bar")] campoGatedText
      (by decide) (by decide) (by rfl)
  · exact C4_amended_conditional_gating.2.1 formCond.campos [("x", Value.str "bar")]
      [("c", Value.num 2)] (by rfl) campoCondCalc (by simp [formCond]) (by rfl)
  · exact C4_amended_conditional_gating.2.2.1 [] campoX (by rfl) (by decide)
  · exact C4_amended_conditional_gating.2.2.2 campoX (some "x=foo")

/-! #### Validator lemmas: wrapped schemas keep rejecting `undefined` -/

theorem zodParse_minLen_none_error (z : Zod) (b : ℚ) (m : String) (e : ZodError)
    (h : zodParse z none = .error e) : zodParse (.minLen z b m) none = .error e := by
  simp [zodParse, h]

theorem zodParse_minNum_none_error (z : Zod) (b : ℚ) (m : String) (e : ZodError)
    (h : zodParse z none = .error e) : zodParse (.minNum z b m) none = .error e := by
  simp [zodParse, h]

theorem zodParse_maxNum_none_error (z : Zod) (b : ℚ) (m : String) (e : ZodError)
    (h : zodParse z none = .error e) : zodParse (.maxNum z b m) none = .error e := by
  simp [zodParse, h]

theorem zodParse_intCheck_none_error (z : Zod) (e : ZodError)
    (h : zodParse z none = .error e) : zodParse (.intCheck z) none = .error e := by
  simp [zodParse, h]

theorem zodParse_refine_none_error (z : Zod) (p : Option Value → Bool) (m : String)
    (e : ZodError) (h : zodParse z none = .error e) :
    zodParse (.refine z p m) none = .error e := by
  simp [zodParse, h]

theorem applyText_none_error (schema : Zod) (campo : Field) (e : ZodError)
    (h : zodParse schema none = .error e) :
    ∃ e2, zodParse (FieldValidator.applyTextValidations schema campo) none = .error e2 := by
  unfold FieldValidator.applyTextValidations
  generalize (campo.validacoes.getD []).find? (fun v => v.tipo = "tamanho_minimo") = r
  rcases r with _ | v
  · exact ⟨e, h⟩
  · show ∃ e2, zodParse
      (match v.valor with
       | some (.num q) =>
           if q ≠ 0 then
             Zod.minLen schema q ((v.mensagem).getD ("Tamanho mínimo é " ++ toString q))
           else schema
       | _ => schema) none = Except.error e2
    rcases hv : v.valor with _ | w
    · exact ⟨e, h⟩
    · rcases w with q | s | b | l
      · show ∃ e2, zodParse
          (if q ≠ 0 then
             Zod.minLen schema q ((v.mensagem).getD ("Tamanho mínimo é " ++ toString q))
           else schema) none = Except.error e2
        by_cases hq : q ≠ 0
        · rw [if_pos hq]
          exact ⟨e, zodParse_minLen_none_error schema q _ e h⟩
        · rw [if_neg hq]; exact ⟨e, h⟩
      · exact ⟨e, h⟩
      · exact ⟨e, h⟩
      · exact ⟨e, h⟩

theorem applyNumberRule_none_error (z : Zod) (v : Validacao) (e : ZodError)
    (h : zodParse z none = .error e) :
    ∃ e2, zodParse (FieldValidator.applyNumberRule z v) none = .error e2 := by
  unfold FieldValidator.applyNumberRule
  by_cases hmin : v.tipo = "minimo"
  · rw [if_pos hmin, if_neg (by rw [hmin]; decide)]
    show ∃ e2, zodParse
      (match v.valor with
       | some (.num q) =>
           Zod.minNum z q ((v.mensagem).getD ("Valor mínimo é " ++ toString q))
       | _ => z) none = Except.error e2
    rcases hv : v.valor with _ | w
    · exact ⟨e, h⟩
    · rcases w with q | s | b | l
      · exact ⟨e, zodParse_minNum_none_error z q _ e h⟩
      · exact ⟨e, h⟩
      · exact ⟨e, h⟩
      · exact ⟨e, h⟩
  · rw [if_neg hmin]
    by_cases hmax : v.tipo = "maximo"
    · rw [if_pos hmax]
      show ∃ e2, zodParse
        (match v.valor with
         | some (.num q) =>
             Zod.maxNum z q ((v.mensagem).getD ("Valor máximo é " ++ toString q))
         | _ => z) none = Except.error e2
      rcases hv : v.valor with _ | w
      · exact ⟨e, h⟩
      · rcases w with q | s | b | l
        · exact ⟨e, zodParse_maxNum_none_error z q _ e h⟩
        · exact ⟨e, h⟩
        · exact ⟨e, h⟩
        · exact ⟨e, h⟩
    · rw [if_neg hmax]; exact ⟨e, h⟩

theorem foldl_applyNumberRule_none_error :
    ∀ (l : List Validacao) (z : Zod) (e : ZodError), zodParse z none = .error e →
      ∃ e2, zodParse (l.foldl FieldValidator.applyNumberRule z) none = .error e2 := by
  intro l
  induction l with
  | nil => intro z e h; exact ⟨e, h⟩
  | cons v t ih =>
    intro z e h
    rw [List.foldl_cons]
    obtain ⟨e2, he2⟩ := applyNumberRule_none_error z v e h
    exact ih _ e2 he2

theorem applyNumber_none_error (schema : Zod) (campo : Field) (e : ZodError)
    (h : zodParse schema none = .error e) :
    ∃ e2, zodParse (FieldValidator.applyNumberValidations schema campo) none = .error e2 := by
  unfold FieldValidator.applyNumberValidations
  by_cases hfor : campo.formato = some "inteiro"
  · rw [if_pos hfor]
    exact foldl_applyNumberRule_none_error _ _ _ (zodParse_intCheck_none_error schema e h)
  · rw [if_neg hfor]
    exact foldl_applyNumberRule_none_error _ _ _ h

theorem applyDate_none_error (schema : Zod) (campo : Field) (e : ZodError)
    (h : zodParse schema none = .error e) :
    ∃ e2, zodParse (FieldValidator.applyDateValidations schema campo) none = .error e2 := by
  unfold FieldValidator.applyDateValidations
  by_cases hmin : strTruthy campo.minima
  · rw [if_pos hmin]
    by_cases hmax : strTruthy campo.maxima
    · rw [if_pos hmax]
      exact ⟨e, zodParse_refine_none_error _ _ _ e
        (zodParse_refine_none_error _ _ _ e h)⟩
    · rw [if_neg hmax]
      exact ⟨e, zodParse_refine_none_error _ _ _ e h⟩
  · rw [if_neg hmin]
    by_cases hmax : strTruthy campo.maxima
    · rw [if_pos hmax]
      exact ⟨e, zodParse_refine_none_error _ _ _ e h⟩
    · rw [if_neg hmax]
      exact ⟨e, h⟩

theorem applySelect_none_error (schema : Zod) (campo : Field) (e : ZodError)
    (h : zodParse schema none = .error e) :
    ∃ e2, zodParse (FieldValidator.applySelectValidations schema campo) none = .error e2 := by
  unfold FieldValidator.applySelectValidations
  by_cases hm : boolTruthy campo.multipla
  · rw [if_pos hm]
    exact ⟨.invalidType "array" "undefined", rfl⟩
  · rw [if_neg hm]
    exact ⟨e, zodParse_refine_none_error _ _ _ e h⟩

theorem boolTruthy_eq_some_true (o : Option Bool) (h : boolTruthy o = true) :
    o = some true := by
  cases o with
  | none => cases h
  | some b => cases b with
    | false => cases h
    | true => rfl

/-- A field of any of the five plain kinds that is required rejects an
absent (`undefined`) candidate value. -/
theorem validate_none_required_fails (campo : Field)
    (hreq : boolTruthy campo.obrigatorio = true)
    (hk : campo.tipo ∈ (["text", "number", "boolean", "date", "select"] : List String)) :
    ∃ e, FieldValidator.validate none campo = .error e := by
  have hob := boolTruthy_eq_some_true campo.obrigatorio hreq
  obtain ⟨cid, clabel, ctipo, cobrig, ccond, cval, cform, cdeps, cprec, cformato,
    cmult, copco, cmin, cmax⟩ := campo
  simp only [List.mem_cons, List.mem_singleton, List.not_mem_nil, or_false] at hk
  dsimp only at hob hk
  subst hob
  rcases hk with h | h | h | h | h <;> subst h
  · obtain ⟨e2, he2⟩ := applyText_none_error Zod.zString _
      (.invalidType "string" "undefined") rfl
    refine ⟨.zod e2, ?_⟩
    show (match zodParse (FieldValidator.applyTextValidations Zod.zString _) none with
      | .error e => (.error (.zod e) : Except Err Unit)
      | .ok _ => .ok ()) = .error (.zod e2)
    rw [he2]
  · obtain ⟨e2, he2⟩ := applyNumber_none_error Zod.zNumber _
      (.invalidType "number" "undefined") rfl
    refine ⟨.zod e2, ?_⟩
    show (match zodParse (FieldValidator.applyNumberValidations Zod.zNumber _) none with
      | .error e => (.error (.zod e) : Except Err Unit)
      | .ok _ => .ok ()) = .error (.zod e2)
    rw [he2]
  · exact ⟨.zod (.invalidType "boolean" "undefined"), rfl⟩
  · obtain ⟨e2, he2⟩ := applyDate_none_error
      ((FieldValidator.baseValidators "date").getD .zAny) _
      (.invalidType "string" "undefined") rfl
    refine ⟨.zod e2, ?_⟩
    show (match zodParse (FieldValidator.applyDateValidations
        ((FieldValidator.baseValidators "date").getD .zAny) _) none with
      | .error e => (.error (.zod e) : Except Err Unit)
      | .ok _ => .ok ()) = .error (.zod e2)
    rw [he2]
  · obtain ⟨e2, he2⟩ := applySelect_none_error Zod.zString _
      (.invalidType "string" "undefined") rfl
    refine ⟨.zod e2, ?_⟩
    show (match zodParse (FieldValidator.applySelectValidations Zod.zString _) none with
      | .error e => (.error (.zod e) : Except Err Unit)
      | .ok _ => .ok ()) = .error (.zod e2)
    rw [he2]

/-- C3: because definition-level validation runs the field validator with
an absent candidate value for every field, any form definition containing
at least one required field of a plain kind (text, number, boolean, date,
select) is rejected: creation and schema update both fail with the
validation error raised by `validarCampos`, before any persistence
write. -/
theorem C3_required_fields_always_fail :
    (∀ (st : RepoState) (now : Nat) (form : Form) (campo : Field),
      campo ∈ form.campos → boolTruthy campo.obrigatorio = true →
      campo.tipo ∈ (["text", "number", "boolean", "date", "select"] : List String) →
      ∃ e, FormService.validarCampos form.campos = .error e ∧
        FormService.criarFormulario st now form = .error e) ∧
    (∀ (st : RepoState) (id : String) (p : PartialForm) (f : Form) (campo : Field),
      FormRepository.findById st id = some f → f.is_ativo →
      campo ∈ p.campos.getD [] → boolTruthy campo.obrigatorio = true →
      campo.tipo ∈ (["text", "number", "boolean", "date", "select"] : List String) →
      ∃ e, FormService.validarCampos (p.campos.getD []) = .error e ∧
        FormService.atualizarSchemaFormulario st id p = .error e) := by
  constructor
  · intro st now form campo hmem hreq hk
    obtain ⟨e, he⟩ := validarCampos_error_of_mem form.campos campo hmem
      (validate_none_required_fails campo hreq hk)
    refine ⟨e, he, ?_⟩
    unfold FormService.criarFormulario
    rw [he]
  · intro st id p f campo hf hat hmem hreq hk
    obtain ⟨e, he⟩ := validarCampos_error_of_mem (p.campos.getD []) campo hmem
      (validate_none_required_fails campo hreq hk)
    refine ⟨e, he, ?_⟩
    unfold FormService.atualizarSchemaFormulario
    rw [hf]
    simp [hat, he]

/-- C3 witness: creating or updating with the single required text field
`t` fails with a validation error. -/
theorem C3_witness :
    (∃ e, FormService.validarCampos formReq.campos = .error e ∧
      FormService.criarFormulario stBase 0 formReq = .error e) ∧
    (∃ e, FormService.validarCampos
        ((PartialForm.campos { campos := some [campoTextoObrigatorio] }).getD []) =
          .error e ∧
      FormService.atualizarSchemaFormulario stBase "f0"
        { campos := some [campoTextoObrigatorio] } = .error e) :=
  ⟨C3_required_fields_always_fail.1 stBase 0 formReq campoTextoObrigatorio
     (by simp [formReq]) (by decide) (by decide),
   C3_required_fields_always_fail.2 stBase "f0" { campos := some [campoTextoObrigatorio] }
     formBase campoTextoObrigatorio rfl rfl (by simp) (by decide) (by decide)⟩

/-- C5 amended: soft-deleting a protected form fails with the
protected-form error and leaves the store untouched; the protection flag
is carried over from the *stored* form by every schema update, so it
cannot be cleared through an update (and soft-delete keeps failing);
soft-deleting an unprotected active form succeeds, flips `active` to
false and stamps the removal time and actor. -/
theorem C5_amended_protected_soft_delete :
    (∀ (st : RepoState) (now : Nat) (id : String) (f : Form),
      FormRepository.findById st id = some f → boolTruthy f.protegido →
      FormController.softDelete st now id =
        (st, .forbidden "Formulário protegido não pode ser removido")) ∧
    (∀ (st : RepoState) (id : String) (p : PartialForm) (f : Form)
      (st2 : RepoState) (f2 : Form),
      FormRepository.findById st id = some f →
      FormService.atualizarSchemaFormulario st id p = .ok (st2, f2) →
      f2.protegido = f.protegido ∧ FormRepository.findById st2 id = some f2) ∧
    (∀ (st : RepoState) (now : Nat) (id : String) (f : Form),
      FormRepository.findById st id = some f → ¬ boolTruthy f.protegido →
      f.is_ativo →
      FormController.softDelete st now id =
        (FormRepository.softDelete st id "usuario_admin" now, .ok) ∧
      FormRepository.findById (FormRepository.softDelete st id "usuario_admin" now) id =
        some { f with is_ativo := false, data_remocao := some now,
                      usuario_remocao := some "usuario_admin" }) := by
  refine ⟨?_, ?_, ?_⟩
  · intro st now id f hf hp
    unfold FormController.softDelete FormService.obterFormularioPorId
    rw [hf]
    simp [hp]
  · intro st id p f st2 f2 hf h
    obtain ⟨hshape, hforms, _⟩ := atualizar_ok_shape st id p f st2 f2 hf h
    refine ⟨by rw [hshape], ?_⟩
    unfold FormRepository.findById
    rw [hforms]
    exact find?_update_row st.forms id (fun _ => f2) f hf
      (by rw [hshape]; exact findById_id st id f hf)
  · intro st now id f hf hp hat
    constructor
    · unfold FormController.softDelete FormService.obterFormularioPorId
        FormService.desativarFormulario
      rw [hf]
      simp [hp, hat]
    · unfold FormRepository.findById FormRepository.softDelete
      exact find?_update_row st.forms id
        (fun x => { x with is_ativo := false, data_remocao := some now,
                           usuario_remocao := some "usuario_admin" }) f hf
        (findById_id st id f hf)

/-- C5 amended witness: the protected form `formProt` is refused with
403; the update that tries to clear protection persists `formProt2` with
protection still on; the unprotected form `formLivre` is soft-deleted
with removal metadata stamped. -/
theorem C5_amended_witness :
    FormController.softDelete stProt 7 "p1" =
      (stProt, .forbidden "Formulário protegido não pode ser removido") ∧
    (formProt2.protegido = formProt.protegido ∧
      FormRepository.findById stProt2 "p1" = some formProt2) ∧
    (FormController.softDelete stLivre 42 "u1" =
      (FormRepository.softDelete stLivre "u1" "usuario_admin" 42, .ok) ∧
      FormRepository.findById (FormRepository.softDelete stLivre "u1" "usuario_admin" 42)
          "u1" =
        some { formLivre with is_ativo := false, data_remocao := some 42,
                              usuario_remocao := some "usuario_admin" }) :=
  ⟨C5_amended_protected_soft_delete.1 stProt 7 "p1" formProt rfl (by decide),
   C5_amended_protected_soft_delete.2.1 stProt "p1"
     { protegido := some false, campos := some [] } formProt stProt2 formProt2 rfl rfl,
   C5_amended_protected_soft_delete.2.2 stLivre 42 "u1" formLivre rfl (by decide)
     (by decide)⟩

/-- C6 amended: an explicit *nonzero* `schema_version` different from the
stored version makes the submission fail with the version-mismatch error
(and nothing is persisted, the operation returning an error); when the
caller omits the version (or supplies the falsy `0`), the target version
defaults to the stored version and the check passes. -/
theorem C6_amended_version_mismatch :
    (∀ (st : RepoState) (now : Nat) (formId : String) (respostas : Rec)
      (sv : Int) (f : Form),
      FormRepository.findById st formId = some f → f.is_ativo → sv ≠ 0 →
      sv ≠ f.schema_version →
      FormService.enviarResposta st now formId respostas (some sv) =
        .error (.msg "Versão do schema desatualizada")) ∧
    (∀ s : Int, FormService.resolveVersaoAlvo none s = s) ∧
    (∀ s : Int, FormService.resolveVersaoAlvo (some 0) s = s) := by
  refine ⟨?_, fun s => rfl, fun s => rfl⟩
  intro st now formId respostas sv f hf hat hsv hne
  unfold FormService.enviarResposta
  rw [hf]
  simp [hat, FormService.resolveVersaoAlvo, numTruthy, hsv, hne]

/-- C6 amended witness: submitting against `formBase` (stored version 1)
with explicit version 5 fails with the mismatch error; the resolved
target for an omitted or zero version is the stored version. -/
theorem C6_amended_witness :
    FormService.enviarResposta stBase 9 "f0" [] (some 5) =
      .error (.msg "Versão do schema desatualizada") ∧
    FormService.resolveVersaoAlvo none 7 = 7 ∧
    FormService.resolveVersaoAlvo (some 0) 7 = 7 :=
  ⟨C6_amended_version_mismatch.1 stBase 9 "f0" [] 5 formBase rfl rfl
      (by decide) (by decide),
   C6_amended_version_mismatch.2.1 7,
   C6_amended_version_mismatch.2.2 7⟩

/-- C7 amended: an explicit *nonzero* `schema_version` that is not
strictly greater than the stored version makes the schema update fail
with the version-conflict error (no persistence write happens, the
operation returning an error before `updateSchema` is reached); supplying
exactly stored + 1 succeeds and persists stored + 1. -/
theorem C7_amended_version_conflict :
    (∀ (st : RepoState) (id : String) (p : PartialForm) (f : Form) (v : Int),
      FormRepository.findById st id = some f → f.is_ativo →
      FormService.validarCampos (p.campos.getD []) = .ok () →
      FormService.verificarDependenciasCirculares (p.campos.getD []) = .ok () →
      p.schema_version = some v → v ≠ 0 → v ≤ f.schema_version →
      FormService.atualizarSchemaFormulario st id p =
        .error (.msg ("Versão do schema " ++ toString v ++
          " não é maior que a versão atual " ++ toString f.schema_version))) ∧
    (∀ (st : RepoState) (id : String) (p : PartialForm) (f : Form),
      FormRepository.findById st id = some f → f.is_ativo →
      FormService.validarCampos (p.campos.getD []) = .ok () →
      FormService.verificarDependenciasCirculares (p.campos.getD []) = .ok () →
      p.schema_version = some (f.schema_version + 1) →
      ∃ (st2 : RepoState) (f2 : Form),
        FormService.atualizarSchemaFormulario st id p = .ok (st2, f2) ∧
        f2.schema_version = f.schema_version + 1) := by
  constructor
  · intro st id p f v hf hat hval hver hv hv0 hle
    unfold FormService.atualizarSchemaFormulario
    rw [hf]
    simp only [hat, not_true_eq_false, if_false, hval, hver]
    rw [if_pos (by simp [hv, numTruthy, hv0, hle])]
    rw [hv]
    rfl
  · intro st id p f hf hat hval hver hv
    unfold FormService.atualizarSchemaFormulario
    rw [hf]
    simp only [hat, not_true_eq_false, if_false, hval, hver]
    rw [hv]
    have hneg : ¬ (numTruthy (some (f.schema_version + 1)) = true ∧
        (some (f.schema_version + 1)).getD 0 ≤ f.schema_version) := by
      rintro ⟨-, hle⟩
      simp only [Option.getD_some] at hle
      omega
    rw [if_neg hneg]
    unfold FormRepository.updateSchema
    have hf2 : st.forms.find? (fun x => x.id = id) = some f := hf
    rw [hf2]
    exact ⟨_, _, rfl, rfl⟩

/-- C7 amended witness: updating `formBase` (stored version 1) with an
explicit equal version 1 fails with the conflict error; with explicit
version 2 it succeeds at version 2. -/
theorem C7_amended_witness :
    FormService.atualizarSchemaFormulario stBase "f0"
        { schema_version := some 1, campos := some [] } =
      .error (.msg ("Versão do schema " ++ toString (1 : Int) ++
        " não é maior que a versão atual " ++ toString formBase.schema_version)) ∧
    (∃ (st2 : RepoState) (f2 : Form),
      FormService.atualizarSchemaFormulario stBase "f0"
          { schema_version := some 2, campos := some [] } = .ok (st2, f2) ∧
      f2.schema_version = formBase.schema_version + 1) :=
  ⟨C7_amended_version_conflict.1 stBase "f0"
      { schema_version := some 1, campos := some [] } formBase 1 rfl rfl rfl rfl rfl
      (by decide) (by decide),
   C7_amended_version_conflict.2 stBase "f0"
      { schema_version := some 2, campos := some [] } formBase rfl rfl rfl rfl rfl⟩

/-- C8: creation always persists `schema_version = 1`, `active = true`
and `protegido` defaulting to `false` when unset (appending exactly the
created row to the store); every successful schema update persists
`schema_version = stored + 1` while carrying the stored creation
timestamp, active flag and protection flag over unchanged into the
persisted row. -/
theorem C8_create_update_invariants :
    (∀ (st : RepoState) (now : Nat) (form : Form) (st2 : RepoState) (f : Form),
      FormService.criarFormulario st now form = .ok (st2, f) →
      f.schema_version = 1 ∧ f.is_ativo = true ∧
      f.protegido = some (form.protegido.getD false) ∧
      st2.forms = st.forms ++ [f]) ∧
    (∀ (st : RepoState) (id : String) (p : PartialForm) (f : Form)
      (st2 : RepoState) (f2 : Form),
      FormRepository.findById st id = some f →
      FormService.atualizarSchemaFormulario st id p = .ok (st2, f2) →
      f2.schema_version = f.schema_version + 1 ∧
      f2.data_criacao = f.data_criacao ∧
      f2.is_ativo = f.is_ativo ∧
      f2.protegido = f.protegido ∧
      FormRepository.findById st2 id = some f2) := by
  constructor
  · intro st now form st2 f h
    unfold FormService.criarFormulario at h
    split at h
    · exact (Except.noConfusion h)
    · split at h
      · exact (Except.noConfusion h)
      · unfold FormRepository.create at h
        injection h with h
        injection h with h1 h2
        subst h2
        exact ⟨rfl, rfl, rfl, by rw [← h1]⟩
  · intro st id p f st2 f2 hf h
    obtain ⟨hshape, hforms, _⟩ := atualizar_ok_shape st id p f st2 f2 hf h
    refine ⟨by rw [hshape], by rw [hshape], by rw [hshape], by rw [hshape], ?_⟩
    unfold FormRepository.findById
    rw [hforms]
    exact find?_update_row st.forms id (fun _ => f2) f hf
      (by rw [hshape]; exact findById_id st id f hf)

/-- C8 witness: creating `formNovo` (caller supplied version 99, inactive,
no protection flag) persists version 1, active, unprotected; updating
`formBase` carries timestamp/active/protection over and bumps the
version. -/
theorem C8_witness :
    (∃ (st2 : RepoState) (f : Form),
      FormService.criarFormulario stBase 11 formNovo = .ok (st2, f) ∧
      f.schema_version = 1 ∧ f.is_ativo = true ∧ f.protegido = some false ∧
      st2.forms = stBase.forms ++ [f]) ∧
    (∃ (st2 : RepoState) (f2 : Form),
      FormService.atualizarSchemaFormulario stBase "f0" { nome := some "X" } =
        .ok (st2, f2) ∧
      f2.schema_version = 2 ∧ f2.data_criacao = formBase.data_criacao ∧
      f2.is_ativo = formBase.is_ativo ∧ f2.protegido = formBase.protegido) := by
  constructor
  · obtain ⟨h1, h2, h3, h4⟩ := C8_create_update_invariants.1 stBase 11 formNovo _ _ rfl
    exact ⟨_, _, rfl, h1, h2, h3, h4⟩
  · obtain ⟨h1, h2, h3, h4, h5⟩ :=
      C8_create_update_invariants.2 stBase "f0" { nome := some "X" } formBase _ _ rfl rfl
    exact ⟨_, _, rfl, h1, h2, h3, h4⟩

/-- C1: `enviarResposta` does not evaluate calculated fields in
topological dependency order with earlier computed values in scope: it
iterates them in declared order and always passes only the submitted
values to the calculator.  With `a` (constant formula, no dependencies)
and `b` (depends on `a`), the submission fails with the
missing-dependency error for `b` in both declaration orders — even when
`a` is declared first and its value has already been computed, that value
is never added to the evaluation scope.  This contradicts the claim (and
`docs/ANALISE.md`, which describes a topological ordering guaranteeing
dependencies are available), so the code diverges from its own
documentation. -/
theorem C1_calc_on_calc_missing_dependency :
    FormService.enviarResposta stAB 1000 "fab" [] none =
      .error (.msg "Dependências ausentes para b: a") ∧
    FormService.enviarResposta stBA 1000 "fba" [] none =
      .error (.msg "Dependências ausentes para b: a") :=
  ⟨rfl, rfl⟩

/-- C4 counterexample: a calculated field whose conditional evaluates to
false against the submitted values is still computed and recorded.
Form `formCond` has text field `x` and calculated field `c` gated by
`x=foo`; submitting `x = "bar"` makes the conditional false, yet the
persisted response records `c = 2` among the computed values, refuting
"no value is computed or recorded for it". -/
theorem C4_counterexample_conditional_calculated_still_computed :
    FormService.enviarResposta stCond 5 "fc" [("x", Value.str "bar")] none =
      .ok ({ forms := [formCond], responses := [respCond] }, respCond) ∧
    FormService.avaliarCondicional "x=foo" [("x", Value.str "bar")] = .ok false ∧
    Rec.get respCond.calculados "c" = some (Value.num 2) :=
  ⟨rfl, rfl, rfl⟩

/-- C5 counterexample: the protection flag cannot be cleared via a schema
update, so soft-deleting a protected form keeps failing after the update
that tries to clear it.  Updating `formProt` with `protegido := false`
succeeds but persists the stored flag (`protegido` stays `true`, version
bumps to 2); the subsequent controller soft-delete still answers 403 and
the form remains active.  This refutes "after the protection flag is
cleared via a schema update, soft-deleting the same form succeeds". -/
theorem C5_counterexample_protection_survives_update :
    FormService.atualizarSchemaFormulario stProt "p1"
        { protegido := some false, campos := some [] } =
      .ok (stProt2, formProt2) ∧
    formProt2.protegido = some true ∧
    FormController.softDelete stProt2 99 "p1" =
      (stProt2, .forbidden "Formulário protegido não pode ser removido") ∧
    (FormRepository.findById stProt2 "p1").map (fun f => f.is_ativo) = some true :=
  ⟨rfl, rfl, rfl, rfl⟩

/-- C6 counterexample: an explicit `schema_version` of `0` differs from
the stored version `1`, yet the submission succeeds (and persists a
response at the stored version) because `schema_version ||
formulario.schema_version` treats `0` as absent.  This refutes "for every
SubmitResponse call that supplies an explicit schemaVersion different
from the stored form's current schemaVersion, the operation fails". -/
theorem C6_counterexample_zero_version_accepted :
    FormService.enviarResposta stBase 9 "f0" [] (some 0) =
      .ok ({ forms := [formBase], responses := [respZero] }, respZero) ∧
    respZero.schema_version = 1 :=
  ⟨rfl, rfl⟩

/-- C7 counterexample: an explicit `schema_version` of `0` is not
strictly greater than the stored version `1`, yet the schema update
succeeds (persisting version 2) because the conflict guard
`formularioAtualizado.schema_version && ... <= ...` treats `0` as absent.
This refutes "the operation fails with SchemaVersionConflictError". -/
theorem C7_counterexample_zero_version_no_conflict :
    FormService.atualizarSchemaFormulario stBase "f0"
        { schema_version := some 0, campos := some [] } =
      .ok ({ forms := [{ formBase with schema_version := 2, campos := [] }],
             responses := [] },
           { formBase with schema_version := 2, campos := [] }) :=
  rfl

/-- `getValidator` on a calculated field reduces to the calculated
branch over the (possibly optional-wrapped) `z.undefined()` schema. -/
theorem getValidator_calculated (campo : Field) (htipo : campo.tipo = "calculated") :
    FieldValidator.getValidator campo =
      FieldValidator.applyCalculatedValidations
        (if ¬ boolTruthy campo.obrigatorio then Zod.optional Zod.zUndef else Zod.zUndef)
        campo := by
  unfold FieldValidator.getValidator FieldValidator.baseValidators
  rw [htipo]
  rfl

/-- C9: a calculated field lacking a (truthy) formula or a dependencies
array is rejected for *every* candidate value with the definition error;
a well-defined calculated field accepts an absent value and rejects every
present value — but with zod's `invalid_type` error (expected undefined),
never with the refine message "Campos calculados não podem ter valores
inseridos manualmente", because `z.undefined()` aborts before the
refinement runs.  The concrete conjuncts evaluate the validator at the
inputs of the repository's own unit test, which expects the refine
message and therefore disagrees with the code. -/
theorem C9_calculated_field_validation :
    FieldValidator.validate (some (Value.num (49 / 2))) imcField =
      .error (.zod (.invalidType "undefined" "number")) ∧
    FieldValidator.validate none imcField = .ok () ∧
    (∀ (campo : Field) (v : Option Value), campo.tipo = "calculated" →
      (¬ strTruthy campo.formula = true ∨ ¬ arrTruthy campo.dependencias = true) →
      FieldValidator.validate v campo =
        .error (.msg "Campo calculado deve ter formula e dependencias")) ∧
    (∀ (campo : Field) (v : Value), campo.tipo = "calculated" →
      strTruthy campo.formula = true → arrTruthy campo.dependencias = true →
      FieldValidator.validate (some v) campo =
        .error (.zod (.invalidType "undefined" (valueTypeName (some v)))) ∧
      FieldValidator.validate none campo = .ok ()) := by
  refine ⟨rfl, rfl, ?_, ?_⟩
  · intro campo v htipo hmiss
    unfold FieldValidator.validate
    rw [getValidator_calculated campo htipo]
    unfold FieldValidator.applyCalculatedValidations
    rw [if_pos hmiss]
  · intro campo v htipo hform hdeps
    have hgv := getValidator_calculated campo htipo
    unfold FieldValidator.applyCalculatedValidations at hgv
    rw [if_neg (not_or.mpr ⟨not_not_intro hform, not_not_intro hdeps⟩)] at hgv
    constructor
    · unfold FieldValidator.validate
      rw [hgv]
      by_cases hob : boolTruthy campo.obrigatorio = true
      · rw [if_neg (not_not_intro hob)]
        rfl
      · rw [if_pos hob]
        rfl
    · unfold FieldValidator.validate
      rw [hgv]
      by_cases hob : boolTruthy campo.obrigatorio = true
      · rw [if_neg (not_not_intro hob)]
        rfl
      · rw [if_pos hob]
        rfl

/-- C9 witness: the definition error fires for the dependency-less `imc`
field whatever the value; the well-defined `imc` field rejects a string
value with the type error and accepts absence. -/
theorem C9_witness :
    FieldValidator.validate (some (Value.bool true)) imcFieldInvalido =
      .error (.msg "Campo calculado deve ter formula e dependencias") ∧
    FieldValidator.validate none imcFieldInvalido =
      .error (.msg "Campo calculado deve ter formula e dependencias") ∧
    FieldValidator.validate (some (Value.str "24")) imcField =
      .error (.zod (.invalidType "undefined" "string")) ∧
    FieldValidator.validate none imcField = .ok () :=
  ⟨C9_calculated_field_validation.2.2.1 imcFieldInvalido (some (Value.bool true))
     rfl (by decide),
   C9_calculated_field_validation.2.2.1 imcFieldInvalido none rfl (by decide),
   (C9_calculated_field_validation.2.2.2 imcField (Value.str "24") rfl
     (by decide) (by decide)).1,
   (C9_calculated_field_validation.2.2.2 imcField (Value.str "24") rfl
     (by decide) (by decide)).2⟩

/-! #### Decimal rendering of `Date.now()`: `Nat.repr` is injective -/

theorem digitChar_toNat (d : Nat) (h : d < 10) : (Nat.digitChar d).toNat = 48 + d := by
  interval_cases d <;> rfl

theorem digitsVal_append (l : List Char) (c : Char) :
    digitsVal (l ++ [c]) = 10 * digitsVal l + (c.toNat - 48) := by
  unfold digitsVal
  rw [List.foldl_append]
  rfl

theorem digitsVal_myDigits (n : Nat) : digitsVal (myDigits n) = n := by
  induction n using Nat.strong_induction_on with
  | _ n ih =>
    rw [myDigits]
    by_cases h : n / 10 = 0
    · rw [dif_pos h]
      have hn : n < 10 := by
        by_contra hc
        exact absurd h (Nat.ne_of_gt (Nat.div_pos (le_of_not_lt hc) (by norm_num)))
      show 10 * 0 + ((Nat.digitChar (n % 10)).toNat - 48) = n
      rw [digitChar_toNat _ (Nat.mod_lt _ (by norm_num))]
      omega
    · have hpos : 0 < n := by
        rcases Nat.eq_zero_or_pos n with h0 | h0
        · exact absurd (by simp [h0]) h
        · exact h0
      rw [dif_neg h, digitsVal_append,
        ih (n / 10) (Nat.div_lt_self hpos (by norm_num)),
        digitChar_toNat _ (Nat.mod_lt _ (by norm_num))]
      omega

theorem myDigits_injective (a b : Nat) (h : myDigits a = myDigits b) : a = b := by
  have := congrArg digitsVal h
  rwa [digitsVal_myDigits, digitsVal_myDigits] at this

theorem toDigitsCore_eq_myDigits :
    ∀ (fuel n : Nat) (acc : List Char), n < fuel →
      Nat.toDigitsCore 10 fuel n acc = myDigits n ++ acc := by
  intro fuel
  induction fuel with
  | zero => intro n acc h; exact absurd h (Nat.not_lt_zero n)
  | succ f ih =>
    intro n acc h
    show (if n / 10 = 0 then Nat.digitChar (n % 10) :: acc
      else Nat.toDigitsCore 10 f (n / 10) (Nat.digitChar (n % 10) :: acc)) =
        myDigits n ++ acc
    by_cases h0 : n / 10 = 0
    · rw [if_pos h0, myDigits, dif_pos h0]
      rfl
    · have hpos : 0 < n := by
        rcases Nat.eq_zero_or_pos n with hz | hz
        · exact absurd (by simp [hz]) h0
        · exact hz
      have hlt : n / 10 < f := by
        have := Nat.div_lt_self hpos (show 1 < 10 by norm_num)
        omega
      have hmn : myDigits n = myDigits (n / 10) ++ [Nat.digitChar (n % 10)] := by
        rw [myDigits, dif_neg h0]
      rw [if_neg h0, ih (n / 10) _ hlt, hmn, List.append_assoc]
      rfl

theorem natRepr_eq_myDigits (n : Nat) : Nat.repr n = (myDigits n).asString := by
  unfold Nat.repr Nat.toDigits
  rw [toDigitsCore_eq_myDigits (n + 1) n [] (Nat.lt_succ_self n)]
  simp [List.asString]

theorem natRepr_injective (a b : Nat) (h : Nat.repr a = Nat.repr b) : a = b := by
  rw [natRepr_eq_myDigits, natRepr_eq_myDigits] at h
  exact myDigits_injective a b (congrArg String.data h)

theorem string_data_append (s t : String) : (s ++ t).data = s.data ++ t.data := by
  cases s; cases t; rfl

/-- Dissection of a successful `enviarResposta`: the persisted response
id is `resposta_` + the decimal clock reading, the response store grows
by exactly that row, and the insert only succeeded because no stored
response already carried that primary-key id. -/
theorem enviarResposta_ok_shape (st : RepoState) (now : Nat) (formId : String)
    (respostas : Rec) (sv : Option Int) (st2 : RepoState) (r : Response)
    (h : FormService.enviarResposta st now formId respostas sv = .ok (st2, r)) :
    r.id = "resposta_" ++ Nat.repr now ∧ st2.responses = st.responses ++ [r] ∧
    st2.forms = st.forms ∧ ∀ q ∈ st.responses, q.id ≠ r.id := by
  unfold FormService.enviarResposta at h
  simp only [] at h
  split at h
  · exact (Except.noConfusion h)
  · split at h
    · exact (Except.noConfusion h)
    · split at h
      · exact (Except.noConfusion h)
      · split at h
        · exact (Except.noConfusion h)
        · split at h
          · exact (Except.noConfusion h)
          · unfold FormRepository.saveResponse at h
            split at h
            · exact (Except.noConfusion h)
            · rename_i res heq
              split at heq
              · exact (Option.noConfusion heq)
              · rename_i hdup
                injection heq with heq
                injection h with h
                rw [← heq] at h
                injection h with h1 h2
                subst h2
                refine ⟨rfl, by rw [← h1], by rw [← h1], ?_⟩
                intro q hq hqid
                apply hdup
                rw [List.find?_isSome]
                refine ⟨q, hq, ?_⟩
                simp only [decide_eq_true_eq]
                exact hqid

/-- C10 amended: SubmitResponse is not idempotent: whenever a second
call with the same form id, submitted values and target version also
succeeds, the store has grown by the two fresh rows and their ids
(`resposta_` + the observed millisecond) are distinct — so the two calls
necessarily observed distinct clock readings; a second identical call
observing the *same* millisecond can never succeed, because its insert
carries the first row's primary-key id and the create fails, persisting
nothing. -/
theorem C10_amended_new_row_ids_from_clock :
    ∀ (st : RepoState) (now1 : Nat) (formId : String) (respostas : Rec)
      (sv : Option Int) (st2 : RepoState) (r1 : Response),
      FormService.enviarResposta st now1 formId respostas sv = .ok (st2, r1) →
      (∀ (now2 : Nat) (st3 : RepoState) (r2 : Response),
        FormService.enviarResposta st2 now2 formId respostas sv = .ok (st3, r2) →
        st3.responses = st.responses ++ [r1, r2] ∧
        r1.id = "resposta_" ++ Nat.repr now1 ∧
        r2.id = "resposta_" ++ Nat.repr now2 ∧
        r1.id ≠ r2.id ∧ now1 ≠ now2) ∧
      (∀ (st3 : RepoState) (r2 : Response),
        FormService.enviarResposta st2 now1 formId respostas sv ≠ .ok (st3, r2)) := by
  intro st now1 formId respostas sv st2 r1 h1
  obtain ⟨hid1, hresp1, -, -⟩ :=
    enviarResposta_ok_shape st now1 formId respostas sv st2 r1 h1
  have hmain : ∀ (now2 : Nat) (st3 : RepoState) (r2 : Response),
      FormService.enviarResposta st2 now2 formId respostas sv = .ok (st3, r2) →
      st3.responses = st.responses ++ [r1, r2] ∧
      r1.id = "resposta_" ++ Nat.repr now1 ∧
      r2.id = "resposta_" ++ Nat.repr now2 ∧
      r1.id ≠ r2.id ∧ now1 ≠ now2 := by
    intro now2 st3 r2 h2
    obtain ⟨hid2, hresp2, -, hfresh2⟩ :=
      enviarResposta_ok_shape st2 now2 formId respostas sv st3 r2 h2
    have hr1mem : r1 ∈ st2.responses := by
      rw [hresp1]
      exact List.mem_append.2 (Or.inr (List.mem_singleton.2 rfl))
    have hidne : r1.id ≠ r2.id := hfresh2 r1 hr1mem
    refine ⟨by rw [hresp2, hresp1, List.append_assoc]; rfl, hid1, hid2, hidne, ?_⟩
    intro hnn
    exact hidne (by rw [hid1, hid2, hnn])
  refine ⟨hmain, ?_⟩
  intro st3 r2 h2
  exact (hmain now1 st3 r2 h2).2.2.2.2 rfl

/-- C10 amended witness: against `formBase`, submissions at times 1000
then 1001 both persist and the store ends with the two distinct-id rows;
a second submission observing time 1000 again can never succeed. -/
theorem C10_amended_witness :
    (({ forms := [formBase], responses := [respMil, resp1001] } : RepoState).responses =
        stBase.responses ++ [respMil, resp1001] ∧
      respMil.id = "resposta_" ++ Nat.repr 1000 ∧
      resp1001.id = "resposta_" ++ Nat.repr 1001 ∧
      respMil.id ≠ resp1001.id ∧ (1000 : Nat) ≠ 1001) ∧
    (∀ (st3 : RepoState) (r2 : Response),
      FormService.enviarResposta { forms := [formBase], responses := [respMil] }
        1000 "f0" [] none ≠ .ok (st3, r2)) := by
  have h := C10_amended_new_row_ids_from_clock stBase 1000 "f0" [] none
    { forms := [formBase], responses := [respMil] } respMil rfl
  exact ⟨h.1 1001 { forms := [formBase], responses := [respMil, resp1001] }
    resp1001 rfl, h.2⟩

/-- C10 counterexample: two identical submissions observing the same
millisecond do *not* each persist a new response record: the first call
persists `resposta_1000`, and the second call's insert carries that same
primary-key id, so the create fails with the unique-constraint error and
persists nothing — refuting "each persist a new response record". -/
theorem C10_counterexample_same_millisecond_insert_fails :
    FormService.enviarResposta stBase 1000 "f0" [] none =
      .ok ({ forms := [formBase], responses := [respMil] }, respMil) ∧
    FormService.enviarResposta { forms := [formBase], responses := [respMil] }
        1000 "f0" [] none =
      .error (.msg "Unique constraint failed on the fields: (id)") :=
  ⟨rfl, rfl⟩

end Forms
